import Mathlib

/-!
Verification development for the memscend memory service core
(`src/core` of the repository): identity and hashing utilities,
write-policy engine, tenant override resolution, the LLM response
normalizer, the vector-store repository operations, and the
`MemoryCore` orchestration (`add`, `search`, `update`, `delete`,
`list`, `get_many`, `delete_many`, `search_text`).

Modelling conventions:
* Python strings are modelled as `Str := List Nat`, the list of their
  UTF-8 bytes (every Python string in the claims is compared only
  through its UTF-8 encoding, which is injective, so distinct strings
  correspond to distinct byte lists).
* Timestamps (`datetime.utcnow()` values) are modelled as `Int`
  seconds; `timedelta.days` is floored division by 86400,
  matching Python semantics for negative differences.
* Scores are modelled as real numbers; `0.5 ** (days / 90)` is the
  real power `(1/2) ^ ((days : ℝ) / 90)`.
* External clients (embedding service, LLM) are passed as function
  parameters; the effects a claim talks about (embedding calls,
  upsert batches) are returned explicitly.
-/

namespace Memscend

/-- A Python string, as the list of its UTF-8 bytes. -/
abbrev Str := List Nat

/-- ASCII whitespace bytes removed by Python `str.strip()` on ASCII data. -/
def isSpaceByte (b : Nat) : Bool :=
  b == 32 || b == 9 || b == 10 || b == 13 || b == 11 || b == 12

/-- Python `text.strip()`: drop whitespace from both ends. -/
def pyStrip (s : Str) : Str :=
  ((s.dropWhile isSpaceByte).reverse.dropWhile isSpaceByte).reverse

/-- Python `text.lower()` restricted to ASCII letters. -/
def pyLower (s : Str) : Str :=
  s.map fun b => if 65 ≤ b ∧ b ≤ 90 then b + 32 else b

/-- Python truthiness of a string: non-empty. -/
def strTruthy (s : Str) : Bool := s ≠ []

/-- Python `a or b` for optional strings (`None` and `""` are falsy). -/
def pyOrStr (a : Option Str) (b : Option Str) : Option Str :=
  match a with
  | some s => if s = [] then b else some s
  | none => b

/-- Python `a or b` for optional positive ints (`None` and `0` are falsy). -/
def pyOrNat (a : Option Nat) (b : Option Nat) : Option Nat :=
  match a with
  | some n => if n = 0 then b else some n
  | none => b

/-! ## SHA-256 (FIPS 180-4), the algorithm behind `hashlib.sha256`

`compute_hash` in `src/core/utils.py` feeds the four fields to a
SHA-256 digest with `|` separators and returns the lowercase hex
digest. -/

/-- 2^32, the word modulus of SHA-256. -/
def M32 : Nat := 4294967296

/-- Reduce to a 32-bit word. -/
def w32 (x : Nat) : Nat := x % M32

/-- Rotate the word `x` right by `n` bit positions. -/
def rotr32 (n x : Nat) : Nat := w32 ((x >>> n) ||| (x <<< (32 - n)))

/-- SHA-256 small sigma 0. -/
def ssig0 (x : Nat) : Nat := rotr32 7 x ^^^ rotr32 18 x ^^^ (x >>> 3)

/-- SHA-256 small sigma 1. -/
def ssig1 (x : Nat) : Nat := rotr32 17 x ^^^ rotr32 19 x ^^^ (x >>> 10)

/-- SHA-256 big sigma 0. -/
def bsig0 (x : Nat) : Nat := rotr32 2 x ^^^ rotr32 13 x ^^^ rotr32 22 x

/-- SHA-256 big sigma 1. -/
def bsig1 (x : Nat) : Nat := rotr32 6 x ^^^ rotr32 11 x ^^^ rotr32 25 x

/-- SHA-256 choice function. -/
def chf (x y z : Nat) : Nat := (x &&& y) ^^^ ((x ^^^ 4294967295) &&& z)

/-- SHA-256 majority function over three words. -/
def majf (x y z : Nat) : Nat := (x &&& y) ^^^ (x &&& z) ^^^ (y &&& z)

/-- The 64 round constants of FIPS 180-4 section 4.2.2, in decimal. -/
def sha256K : List Nat :=
  [1116352408, 1899447441, 3049323471, 3921009573, 961987163,
   1508970993, 2453635748, 2870763221, 3624381080, 310598401,
   607225278, 1426881987, 1925078388, 2162078206, 2614888103,
   3248222580, 3835390401, 4022224774, 264347078, 604807628,
   770255983, 1249150122, 1555081692, 1996064986, 2554220882,
   2821834349, 2952996808, 3210313671, 3336571891, 3584528711,
   113926993, 338241895, 666307205, 773529912, 1294757372,
   1396182291, 1695183700, 1986661051, 2177026350, 2456956037,
   2730485921, 2820302411, 3259730800, 3345764771, 3516065817,
   3600352804, 4094571909, 275423344, 430227734, 506948616,
   659060556, 883997877, 958139571, 1322822218, 1537002063,
   1747873779, 1955562222, 2024104815, 2227730452, 2361852424,
   2428436474, 2756734187, 3204031479, 3329325298]

/-- SHA-256 working state: eight 32-bit words. -/
structure Sha256State where
  a : Nat
  b : Nat
  c : Nat
  d : Nat
  e : Nat
  f : Nat
  g : Nat
  h : Nat
deriving DecidableEq, Repr

/-- The initial hash value of FIPS 180-4 section 5.3.3, in decimal. -/
def sha256H0 : Sha256State :=
  ⟨1779033703, 3144134277, 1013904242, 2773480762,
   1359893119, 2600822924, 528734635, 1541459225⟩

/-- Big-endian byte serialization of `x` on `n` bytes. -/
def toBytesBE (n x : Nat) : List Nat :=
  (List.range n).map fun i => (x >>> (8 * (n - 1 - i))) % 256

/-- Assemble a 64-byte block into sixteen big-endian 32-bit words. -/
def bytesToWords (bs : List Nat) : List Nat :=
  (List.range 16).map fun i =>
    bs.getD (4 * i) 0 * 16777216 + bs.getD (4 * i + 1) 0 * 65536 +
      bs.getD (4 * i + 2) 0 * 256 + bs.getD (4 * i + 3) 0

/-- Extend the 16 block words to the 64-entry message schedule. -/
def sha256Schedule (ws : List Nat) : List Nat :=
  (List.range 48).foldl
    (fun acc _ =>
      let n := acc.length
      acc ++ [w32 (ssig1 (acc.getD (n - 2) 0) + acc.getD (n - 7) 0 +
        ssig0 (acc.getD (n - 15) 0) + acc.getD (n - 16) 0)])
    ws

/-- One SHA-256 round. -/
def sha256Round (k w : Nat) (s : Sha256State) : Sha256State :=
  let t1 := w32 (s.h + bsig1 s.e + chf s.e s.f s.g + k + w)
  let t2 := w32 (bsig0 s.a + majf s.a s.b s.c)
  ⟨w32 (t1 + t2), s.a, s.b, s.c, w32 (s.d + t1), s.e, s.f, s.g⟩

/-- SHA-256 compression of one block (given as 16 words) into the state. -/
def sha256Compress (hs : Sha256State) (block : List Nat) : Sha256State :=
  let w := sha256Schedule block
  let t := (List.range 64).foldl
    (fun s i => sha256Round (sha256K.getD i 0) (w.getD i 0) s) hs
  ⟨w32 (hs.a + t.a), w32 (hs.b + t.b), w32 (hs.c + t.c), w32 (hs.d + t.d),
   w32 (hs.e + t.e), w32 (hs.f + t.f), w32 (hs.g + t.g), w32 (hs.h + t.h)⟩

/-- SHA padding: append `0x80`, zeros, then the 64-bit big-endian bit length,
reaching a multiple of 64 bytes.  (Shared by SHA-256 and SHA-1.) -/
def shaPad (m : List Nat) : List Nat :=
  let z := (119 - m.length % 64) % 64
  m ++ [128] ++ List.replicate z 0 ++ toBytesBE 8 (m.length * 8)

/-- Split a byte list into 64-byte chunks (fuel-driven). -/
def chunk64 : Nat → List Nat → List (List Nat)
  | 0, _ => []
  | _, [] => []
  | fuel + 1, bs => bs.take 64 :: chunk64 fuel (bs.drop 64)

/-- SHA-256 final state over a byte message. -/
def sha256Final (m : List Nat) : Sha256State :=
  (chunk64 (shaPad m).length (shaPad m)).foldl
    (fun hs b => sha256Compress hs (bytesToWords b)) sha256H0

/-- The 32-byte SHA-256 digest of a byte message. -/
def sha256Bytes (m : List Nat) : List Nat :=
  let s := sha256Final m
  toBytesBE 4 s.a ++ toBytesBE 4 s.b ++ toBytesBE 4 s.c ++ toBytesBE 4 s.d ++
    toBytesBE 4 s.e ++ toBytesBE 4 s.f ++ toBytesBE 4 s.g ++ toBytesBE 4 s.h

/-- The sixteen lowercase hexadecimal digits, as ASCII bytes. -/
def hexDigits : List Nat := [48, 49, 50, 51, 52, 53, 54, 55, 56, 57, 97, 98, 99, 100, 101, 102]

/-- One lowercase-hex digit for a nibble. -/
def hexDigit (n : Nat) : Nat := hexDigits.getD (n % 16) 48

/-- Lowercase hex encoding of a byte list (`hexdigest` of the digest bytes). -/
def bytesToHex (bs : List Nat) : List Nat :=
  bs.flatMap fun b => [hexDigit (b / 16), hexDigit b]

/-- `hashlib.sha256(m).hexdigest()`: the 64-char lowercase hex digest. -/
def sha256Hex (m : List Nat) : List Nat := bytesToHex (sha256Bytes m)

/-! ## SHA-1 and UUIDv5, the algorithms behind `uuid.uuid5`

`make_id` in `src/core/utils.py` derives a per-tenant namespace
`uuid5(NAMESPACE_URL, "memory::{org}::{agent}")` and then the record id
`uuid5(namespace, text)`. -/

/-- Left rotation of a 32-bit word. -/
def rotl32 (n x : Nat) : Nat := w32 ((x <<< n) ||| (x >>> (32 - n)))

/-- SHA-1 working state: five 32-bit words. -/
structure Sha1State where
  a : Nat
  b : Nat
  c : Nat
  d : Nat
  e : Nat
deriving DecidableEq, Repr

/-- The SHA-1 initial hash value, in decimal. -/
def sha1H0 : Sha1State :=
  ⟨1732584193, 4023233417, 2562383102, 271733878, 3285377520⟩

/-- The SHA-1 round function for round `t`. -/
def sha1F (t b c d : Nat) : Nat :=
  if t < 20 then (b &&& c) ||| ((b ^^^ 4294967295) &&& d)
  else if t < 40 then b ^^^ c ^^^ d
  else if t < 60 then (b &&& c) ||| (b &&& d) ||| (c &&& d)
  else b ^^^ c ^^^ d

/-- The SHA-1 round constant for round `t`. -/
def sha1KC (t : Nat) : Nat :=
  if t < 20 then 1518500249
  else if t < 40 then 1859775393
  else if t < 60 then 2400959708
  else 3395469782

/-- Extend the 16 block words to the 80-entry SHA-1 message schedule. -/
def sha1Schedule (ws : List Nat) : List Nat :=
  (List.range 64).foldl
    (fun acc _ =>
      let n := acc.length
      acc ++ [rotl32 1 (acc.getD (n - 3) 0 ^^^ acc.getD (n - 8) 0 ^^^
        acc.getD (n - 14) 0 ^^^ acc.getD (n - 16) 0)])
    ws

/-- SHA-1 compression of one block (given as 16 words) into the state. -/
def sha1Compress (hs : Sha1State) (block : List Nat) : Sha1State :=
  let w := sha1Schedule block
  let t := (List.range 80).foldl
    (fun s i =>
      let temp := w32 (rotl32 5 s.a + sha1F i s.b s.c s.d + s.e + sha1KC i + w.getD i 0)
      ⟨temp, s.a, rotl32 30 s.b, s.c, s.d⟩)
    hs
  ⟨w32 (hs.a + t.a), w32 (hs.b + t.b), w32 (hs.c + t.c), w32 (hs.d + t.d), w32 (hs.e + t.e)⟩

/-- The 20-byte SHA-1 digest of a byte message. -/
def sha1Bytes (m : List Nat) : List Nat :=
  let s := (chunk64 (shaPad m).length (shaPad m)).foldl
    (fun hs b => sha1Compress hs (bytesToWords b)) sha1H0
  toBytesBE 4 s.a ++ toBytesBE 4 s.b ++ toBytesBE 4 s.c ++ toBytesBE 4 s.d ++ toBytesBE 4 s.e

/-- The 16 bytes of `uuid.NAMESPACE_URL` (6ba7b811-9dad-11d1-80b4-00c04fd430c8). -/
def namespaceURL : List Nat :=
  [107, 167, 184, 17, 157, 173, 17, 209, 128, 180, 0, 192, 79, 212, 48, 200]

/-- `uuid.uuid5(namespace, name)` as raw bytes: first 16 bytes of
`sha1(namespace.bytes + name)`, with the version nibble forced to 5 and
the variant bits to `10`. -/
def uuid5Bytes (ns name : List Nat) : List Nat :=
  let d := (sha1Bytes (ns ++ name)).take 16
  d.enum.map fun bi =>
    if bi.1 = 6 then (bi.2 &&& 15) ||| 80
    else if bi.1 = 8 then (bi.2 &&& 63) ||| 128
    else bi.2

/-- `str(uuid)`: lowercase hex in 8-4-4-4-12 groups separated by dashes. -/
def uuidStr (bs : List Nat) : Str :=
  bytesToHex (bs.take 4) ++ [45] ++ bytesToHex ((bs.drop 4).take 2) ++ [45] ++
    bytesToHex ((bs.drop 6).take 2) ++ [45] ++ bytesToHex ((bs.drop 8).take 2) ++ [45] ++
    bytesToHex (bs.drop 10)

/-- `make_id(org_id, agent_id, text)` from `src/core/utils.py`:
deterministic UUIDv5 of the tenant namespace and the memory text. -/
def makeId (orgId agentId text : Str) : Str :=
  let tenantNs := uuid5Bytes namespaceURL
    ([109, 101, 109, 111, 114, 121, 58, 58] ++ orgId ++ [58, 58] ++ agentId)
  uuidStr (uuid5Bytes tenantNs text)

/-- The byte string hashed by `compute_hash`: the four fields joined by `|` (byte 124). -/
def hashMessage (orgId agentId userId text : Str) : List Nat :=
  orgId ++ [124] ++ agentId ++ [124] ++ userId ++ [124] ++ text

/-- `compute_hash(org_id, agent_id, user_id, text)` from `src/core/utils.py`:
SHA-256 hex digest of the four fields joined by `|` separators (the
incremental `digest.update` calls hash exactly this concatenation). -/
def computeHash (orgId agentId userId text : Str) : Str :=
  sha256Hex (hashMessage orgId agentId userId text)

/-! ## Domain and configuration models (`src/core/models.py`, `src/core/config/models.py`) -/

/-- ASCII string literal helper (equal to the UTF-8 bytes for ASCII text). -/
def ascii (s : String) : Str := s.toList.map Char.toNat

/-- The `facts` scope, the default of `MemoryScope.FACTS.value`. -/
def scopeFacts : Str := ascii "facts"

/-- The default enabled scopes (`DEFAULT_SCOPES`). -/
def defaultScopes : List Str := [ascii "prefs", ascii "facts", ascii "persona", ascii "constraints"]

/-- An embedding vector (`List[float]`), modelled over `ℚ`. -/
abbrev Vec := List ℚ

/-- `MemoryPayload`: metadata stored alongside embeddings. -/
structure MemoryPayload where
  org_id : Str
  agent_id : Str
  user_id : Str
  scope : Str
  tags : List Str
  source : Option Str
  ttl_days : Nat
  created_at : Int
  updated_at : Int
  deleted : Bool
  text : Str
  dedupe_hash : Option Str
deriving DecidableEq, Repr

/-- `MemoryRecord`: full representation of a stored memory. -/
structure MemoryRecord where
  id : Str
  text : Str
  payload : MemoryPayload
  vector : Option Vec
deriving DecidableEq, Repr

/-- A point stored in the vector collection: id, payload, vector. -/
structure Point where
  id : Str
  payload : MemoryPayload
  vector : Option Vec
deriving DecidableEq, Repr

/-- The state of one Qdrant collection, in scroll order. -/
abbrev Store := List Point

/-- A repository-level search result (`score` is the raw store score). -/
structure RepoHit where
  id : Str
  score : ℚ
  text : Str
  payload : MemoryPayload
deriving DecidableEq, Repr

/-- `MemoryHit`: result entry returned from semantic search (decayed score). -/
structure MemoryHit where
  id : Str
  score : ℝ
  text : Str
  payload : MemoryPayload

/-- `WritePolicy`: rules that govern whether and how a memory is persisted. -/
structure WritePolicy where
  enabled_scopes : List Str
  min_chars : Nat
  deduplicate : Bool
  normalize_with_llm : Bool
  max_batch : Nat
deriving DecidableEq, Repr

/-- The pydantic defaults of `WritePolicy`. -/
def defaultWritePolicy : WritePolicy :=
  ⟨defaultScopes, 12, true, true, 32⟩

/-- `RetrievalPolicy`: parameters for semantic search. -/
structure RetrievalPolicy where
  top_k : Nat
  ef_search : Nat
  include_text : Bool
deriving DecidableEq, Repr

/-- The pydantic defaults of `RetrievalPolicy`. -/
def defaultRetrievalPolicy : RetrievalPolicy := ⟨6, 64, true⟩

/-- `CollectionPolicy`: vector collection tuning. -/
structure CollectionPolicy where
  name : Str
  vector_size : Nat
  distance : Str
  on_disk_payload : Bool
deriving DecidableEq, Repr

/-- `TenantOverrides`: per-tenant overrides for policies and collections
(also the shape of `AgentOverrides`). -/
structure TenantOverrides where
  write : Option WritePolicy
  retrieval : Option RetrievalPolicy
  collection : Option CollectionPolicy
  model : Option Str
  embedding_dims : Option Nat
deriving DecidableEq, Repr

/-- `TenantOverrides()` with every field unset. -/
def emptyOverrides : TenantOverrides := ⟨none, none, none, none, none⟩

/-- `OrgConfig`: organisation-level overrides plus agent overrides. -/
structure OrgConfig where
  overrides : TenantOverrides
  agents : List (Str × TenantOverrides)
deriving DecidableEq, Repr

/-- `CoreConfig`: top-level configuration tree for runtime resolution. -/
structure CoreConfig where
  write : WritePolicy
  retrieval : RetrievalPolicy
  model : Str
  embedding_dims : Nat
  organisations : List (Str × OrgConfig)
deriving DecidableEq, Repr

/-- `Settings` restricted to the branch the core logic reads
(`security` and `services` configure external collaborators). -/
structure Settings where
  core : CoreConfig
deriving DecidableEq, Repr

/-- `Settings` built from the pydantic defaults (`CoreConfig()`), with
no per-organisation overrides. -/
def defaultSettings : Settings :=
  ⟨⟨defaultWritePolicy, defaultRetrievalPolicy, ascii "openrouter/auto", 768, []⟩⟩

/-- `MemoryAddRequest`; each message contributes its `content` value
(`None` when the key is absent). -/
structure MemoryAddRequest where
  user_id : Str
  messages : Option (List (Option Str))
  text : Option Str
  scope : Option Str
  tags : List Str
  source : Option Str
  ttl_days : Nat
deriving DecidableEq, Repr

/-- `MemoryAddRequest.iter_texts`: the request text, then every truthy
message content. -/
def iterTexts (req : MemoryAddRequest) : List Str :=
  (match req.text with
   | some t => if t = [] then [] else [t]
   | none => []) ++
  (match req.messages with
   | some ms => ms.filterMap fun c =>
      match c with
      | some t => if t = [] then none else some t
      | none => none
   | none => [])

/-- `SearchRequest` (k defaults to 6; `request.k or top_k` treats 0 as unset). -/
structure SearchRequest where
  query : Str
  user_id : Option Str
  k : Nat
  scope : Option Str
  tags : List Str
deriving DecidableEq, Repr

/-- `UpdateMemoryRequest`: patch request for a stored memory. -/
structure UpdateMemoryRequest where
  text : Option Str
  tags : Option (List Str)
  scope : Option Str
  ttl_days : Option Nat
  deleted : Option Bool
deriving DecidableEq, Repr

/-- `NotFoundError` is the only core-raised error the claims mention. -/
inductive CoreErr where
  | notFound
deriving DecidableEq, Repr

/-! ## Write-policy engine (`src/core/policies.py`) -/

/-- `WritePolicyEngine.should_persist(text, scope)`. -/
def shouldPersist (policy : WritePolicy) (text : Str) (scope : Str) : Bool :=
  if text = [] ∨ (pyStrip text).length < policy.min_chars then false
  else if scope ∉ policy.enabled_scopes then false
  else true

/-! ## Override resolution (`MemoryCore._resolve_overrides` and friends) -/

/-- `MemoryCore._resolve_overrides(org_id, agent_id)`: unknown org gives
empty overrides; otherwise org-level overrides, each field overridden by
a matching agent entry via Python `or` semantics. -/
def resolveOverrides (core : CoreConfig) (orgId agentId : Str) : TenantOverrides :=
  match core.organisations.lookup orgId with
  | none => emptyOverrides
  | some oc =>
    let resolved := oc.overrides
    match (if agentId = [] then none else oc.agents.lookup agentId) with
    | some agent =>
      { write := agent.write.or resolved.write
        retrieval := agent.retrieval.or resolved.retrieval
        collection := agent.collection.or resolved.collection
        model := pyOrStr agent.model resolved.model
        embedding_dims := pyOrNat agent.embedding_dims resolved.embedding_dims }
    | none => resolved

/-- `MemoryCore._build_policy_engine`: the effective write policy. -/
def buildPolicyEngine (core : CoreConfig) (overrides : TenantOverrides) : WritePolicy :=
  overrides.write.getD core.write

/-- `MemoryCore._resolve_top_k`. -/
def resolveTopK (core : CoreConfig) (overrides : TenantOverrides) : Nat :=
  (overrides.retrieval.getD core.retrieval).top_k

/-! ## Vector repository (`src/core/storage/qdrant_repository.py`)

The Qdrant client itself is external; the repository operations are
modelled on the collection state `Store`, whose list order is the scroll
order.  Similarity search is parameterised by a scoring oracle `sim`. -/

/-- A record view of a stored point (payload only, as built by the
repository read paths: `text` comes from the payload, vectors excluded). -/
def pointToRecord (p : Point) : MemoryRecord :=
  ⟨p.id, p.payload.text, p.payload, none⟩

/-- `QdrantRepository._build_filter`: matching of a payload against the
tenancy filter plus optional scope and tags conditions (falsy scope or
tags add no condition, as in the Python truthiness checks). -/
def buildFilter (orgId agentId : Str) (scope : Option Str) (tags : Option (List Str))
    (p : MemoryPayload) : Bool :=
  decide (p.org_id = orgId) && decide (p.agent_id = agentId) &&
    (match scope with
     | some s => if s = [] then true else decide (p.scope = s)
     | none => true) &&
    (match tags with
     | some ts => if ts = [] then true else p.tags.any fun t => decide (t ∈ ts)
     | none => true)

/-- `QdrantRepository.search`: filter, rank by the store score
descending, truncate to `limit`. -/
def repoSearch (sim : Vec → Option Vec → ℚ) (store : Store) (vector : Vec) (limit : Nat)
    (orgId agentId : Str) (scope : Option Str) (tags : Option (List Str)) : List RepoHit :=
  let matching := store.filter fun p => buildFilter orgId agentId scope tags p.payload
  let hits := matching.map fun p => RepoHit.mk p.id (sim vector p.vector) p.payload.text p.payload
  (hits.mergeSort fun a b => b.score ≤ a.score).take limit

/-- `QdrantRepository.get`: retrieve by primary key, payload only. -/
def repoGet (store : Store) (memoryId : Str) : Option MemoryRecord :=
  (store.find? fun p => p.id = memoryId).map pointToRecord

/-- Upsert of a single record: overwrite the point with the same id, or
append a new point. -/
def upsertPoint (store : Store) (r : MemoryRecord) : Store :=
  if store.any fun p => p.id = r.id then
    store.map fun p => if p.id = r.id then ⟨r.id, r.payload, r.vector⟩ else p
  else store ++ [⟨r.id, r.payload, r.vector⟩]

/-- `QdrantRepository.upsert`: write the batch in order. -/
def repoUpsert (store : Store) (records : List MemoryRecord) : Store :=
  records.foldl upsertPoint store

/-- `QdrantRepository.delete`: hard delete by id. -/
def repoDelete (store : Store) (memoryId : Str) : Store :=
  store.filter fun p => p.id ≠ memoryId

/-- `QdrantRepository.delete_many`: hard delete by id list. -/
def repoDeleteMany (store : Store) (memoryIds : List Str) : Store :=
  if memoryIds = [] then store
  else store.filter fun p => p.id ∉ memoryIds

/-- `QdrantRepository.set_payload`: overwrite the payload on the given
id, keeping the stored vector. -/
def setPayload (store : Store) (r : MemoryRecord) : Store :=
  store.map fun p => if p.id = r.id then ⟨p.id, r.payload, p.vector⟩ else p

/-- `QdrantRepository.soft_delete`: read-modify-write `deleted=true`. -/
def softDelete (store : Store) (memoryId : Str) (now : Int) : Store :=
  match repoGet store memoryId with
  | none => store
  | some r =>
    setPayload store { r with payload := { r.payload with deleted := true, updated_at := now } }

/-- `QdrantRepository.find_by_hash`: first point matching
`(org_id, agent_id, dedupe_hash)` in scroll order. -/
def findByHash (store : Store) (dedupeHash : Str) (orgId agentId : Str) : Option MemoryRecord :=
  (store.find? fun p =>
    p.payload.org_id = orgId ∧ p.payload.agent_id = agentId ∧
      p.payload.dedupe_hash = some dedupeHash).map pointToRecord

/-- `QdrantRepository.get_many`: retrieve by ids (store order). -/
def repoGetMany (store : Store) (memoryIds : List Str) : List MemoryRecord :=
  if memoryIds = [] then []
  else (store.filter fun p => p.id ∈ memoryIds).map pointToRecord

/-- `QdrantRepository.list_recent`: tenancy filter, `deleted == false`
unless `include_deleted`, ordered by `updated_at` descending, limit. -/
def listRecent (store : Store) (orgId agentId : Str) (limit : Nat)
    (includeDeleted : Bool) : List MemoryRecord :=
  let matching := store.filter fun p =>
    p.payload.org_id = orgId ∧ p.payload.agent_id = agentId ∧
      (includeDeleted ∨ p.payload.deleted = false)
  ((matching.mergeSort fun a b => b.payload.updated_at ≤ a.payload.updated_at).take
    limit).map pointToRecord

/-- `QdrantRepository.search_text`: tenancy (and deleted) filter, then a
lowercase substring scan in scroll order up to `limit`. -/
def searchText (store : Store) (orgId agentId : Str) (query : Str) (limit : Nat)
    (includeDeleted : Bool) : List MemoryRecord :=
  let needle := pyLower query
  let matching := store.filter fun p =>
    p.payload.org_id = orgId ∧ p.payload.agent_id = agentId ∧
      (includeDeleted ∨ p.payload.deleted = false)
  (((matching.filter fun p => needle <:+: pyLower p.payload.text).take limit).map
    pointToRecord)

/-! ## Time decay (`src/core/utils.py` `apply_time_decay`) -/

/-- `(now - created_at).days`, clamped at 0: Python `timedelta.days`
floors, so this is floored division of the second difference by 86400. -/
def decayDays (createdAt now : Int) : Int :=
  max ((now - createdAt).fdiv 86400) 0

/-- `apply_time_decay(score, created_at, now)` with the default 90-day
half-life: `score * 0.5 ** (days / half_life_days)`. -/
noncomputable def applyTimeDecay (score : ℝ) (createdAt now : Int) : ℝ :=
  score * (1 / 2 : ℝ) ^ ((decayDays createdAt now : ℝ) / 90)

/-! ## MemoryCore orchestration (`src/core/services.py`)

External collaborators appear as parameters: `normalizeFn` is the LLM
normalization client, `embed` the embedding client, `sim` the store's
similarity scoring.  Each operation returns its result together with the
new store state and, where a claim needs them, the calls issued. -/

/-- What one `MemoryCore.add` run produced: the response records, the
resulting store, the batches sent to the embedding client, and the
upsert batches sent to the repository. -/
structure AddOut where
  records : List MemoryRecord
  store : Store
  embedCalls : List (List Str)
  upsertCalls : List (List MemoryRecord)
deriving DecidableEq, Repr

/-- The stripped, non-empty candidate texts of an add request
(`[text.strip() for text in request.iter_texts() if text.strip()]`). -/
def strippedCandidates (req : MemoryAddRequest) : List Str :=
  ((iterTexts req).map pyStrip).filter (· ≠ [])

/-- `request.scope or MemoryScope.FACTS.value`. -/
def addScope (req : MemoryAddRequest) : Str :=
  (pyOrStr req.scope (some scopeFacts)).getD scopeFacts

/-- The candidate texts after optional LLM normalization. -/
def addCandidates (policy : WritePolicy) (normalizeFn : List Str → List Str)
    (req : MemoryAddRequest) : List Str :=
  if policy.normalize_with_llm then normalizeFn (strippedCandidates req)
  else strippedCandidates req

/-- The candidates surviving the write-policy gate. -/
def survivingTexts (policy : WritePolicy) (normalizeFn : List Str → List Str)
    (req : MemoryAddRequest) : List Str :=
  (addCandidates policy normalizeFn req).filter fun t => shouldPersist policy t (addScope req)

/-- `MemoryCore.add(org_id, agent_id, request)`. -/
def memAdd (settings : Settings) (normalizeFn : List Str → List Str)
    (embed : List Str → List Vec) (store : Store) (orgId agentId : Str)
    (req : MemoryAddRequest) (now : Int) : AddOut :=
  let overrides := resolveOverrides settings.core orgId agentId
  let policy := buildPolicyEngine settings.core overrides
  if strippedCandidates req = [] then ⟨[], store, [], []⟩
  else
    let scope := addScope req
    let texts := survivingTexts policy normalizeFn req
    if texts = [] then ⟨[], store, [], []⟩
    else
      let vectors := embed texts
      let step := fun (acc : List MemoryRecord × List MemoryRecord) (tv : Str × Vec) =>
        let text := tv.1
        let memoryId := makeId orgId agentId text
        let dedupeHash := computeHash orgId agentId req.user_id text
        let fresh : MemoryRecord :=
          ⟨memoryId, text,
            ⟨orgId, agentId, req.user_id, scope, req.tags, req.source, req.ttl_days,
              now, now, false, text, some dedupeHash⟩,
            some tv.2⟩
        if policy.deduplicate then
          match findByHash store dedupeHash orgId agentId with
          | some existing => (acc.1, acc.2 ++ [existing])
          | none => (acc.1 ++ [fresh], acc.2 ++ [fresh])
        else (acc.1 ++ [fresh], acc.2 ++ [fresh])
      let looped := (texts.zip vectors).foldl step ([], [])
      ⟨looped.2,
        if looped.1 = [] then store else repoUpsert store looped.1,
        [texts],
        if looped.1 = [] then [] else [looped.1]⟩

/-- `MemoryCore.search(org_id, agent_id, request)`: embed the query,
repository search under the tenancy filter, decay each score, sort by
decayed score descending (stable, like Python `list.sort`). -/
noncomputable def memSearch (settings : Settings) (sim : Vec → Option Vec → ℚ)
    (embedQuery : Str → Vec) (store : Store) (orgId agentId : Str)
    (req : SearchRequest) (now : Int) : List MemoryHit :=
  let overrides := resolveOverrides settings.core orgId agentId
  let topK := if req.k = 0 then resolveTopK settings.core overrides else req.k
  let vector := embedQuery req.query
  let hits := repoSearch sim store vector topK orgId agentId req.scope
    (if req.tags = [] then none else some req.tags)
  let adjusted := hits.map fun h =>
    MemoryHit.mk h.id (applyTimeDecay (h.score : ℝ) h.payload.created_at now) h.text h.payload
  adjusted.mergeSort fun a b => decide (b.score ≤ a.score)

/-- `MemoryCore.update(org_id, agent_id, memory_id, request)`: fetch,
tenancy check, apply the patch, re-embed and upsert on text change,
otherwise patch the payload in place. -/
def memUpdate (embedOne : Str → Vec) (store : Store) (orgId agentId memoryId : Str)
    (req : UpdateMemoryRequest) (now : Int) : Except CoreErr (MemoryRecord × Store) :=
  match repoGet store memoryId with
  | none => .error .notFound
  | some record =>
    if record.payload.org_id ≠ orgId ∨ record.payload.agent_id ≠ agentId then .error .notFound
    else
      let textTruthy : Bool := match req.text with
        | some t => decide (t ≠ [])
        | none => false
      let newText := match req.text with
        | some t => if t = [] then record.text else t
        | none => record.text
      let p := record.payload
      let newPayload :=
        { p with
          tags := req.tags.getD p.tags
          scope := req.scope.getD p.scope
          ttl_days := req.ttl_days.getD p.ttl_days
          deleted := req.deleted.getD p.deleted
          updated_at := now
          text := newText }
      if textTruthy then
        let updated : MemoryRecord := ⟨record.id, newText, newPayload, some (embedOne newText)⟩
        .ok (updated, repoUpsert store [updated])
      else
        let updated : MemoryRecord := ⟨record.id, newText, newPayload, record.vector⟩
        .ok (updated, setPayload store updated)

/-- `MemoryCore.delete(org_id, agent_id, memory_id, hard)`. -/
def memDelete (store : Store) (orgId agentId memoryId : Str) (hard : Bool)
    (now : Int) : Except CoreErr Store :=
  match repoGet store memoryId with
  | none => .error .notFound
  | some record =>
    if record.payload.org_id ≠ orgId ∨ record.payload.agent_id ≠ agentId then .error .notFound
    else if hard then .ok (repoDelete store memoryId)
    else .ok (softDelete store memoryId now)

/-- `MemoryCore.list(org_id, agent_id, limit, include_deleted)`. -/
def memList (store : Store) (orgId agentId : Str) (limit : Nat)
    (includeDeleted : Bool) : List MemoryRecord :=
  listRecent store orgId agentId limit includeDeleted

/-- `MemoryCore.get_many(org_id, agent_id, memory_ids)`: repository
retrieve filtered by the caller's tenancy. -/
def memGetMany (store : Store) (orgId agentId : Str) (memoryIds : List Str) :
    List MemoryRecord :=
  (repoGetMany store memoryIds).filter fun r =>
    r.payload.org_id = orgId ∧ r.payload.agent_id = agentId

/-- `MemoryCore.delete_many(org_id, agent_id, memory_ids, hard)`: hard
deletes go straight to the repository; soft deletes fetch, filter by
tenancy and patch one by one. -/
def memDeleteMany (store : Store) (orgId agentId : Str) (memoryIds : List Str)
    (hard : Bool) (now : Int) : Store :=
  if memoryIds = [] then store
  else if hard then repoDeleteMany store memoryIds
  else
    (repoGetMany store memoryIds).foldl
      (fun s r =>
        if r.payload.org_id = orgId ∧ r.payload.agent_id = agentId then
          setPayload s { r with payload := { r.payload with deleted := true, updated_at := now } }
        else s)
      store

/-- `MemoryCore.search_text(org_id, agent_id, query, limit, include_deleted)`. -/
def memSearchText (store : Store) (orgId agentId : Str) (query : Str) (limit : Nat)
    (includeDeleted : Bool) : List MemoryRecord :=
  searchText store orgId agentId query limit includeDeleted

/-! ## LLM response normalization (`src/core/clients/openrouter.py`)

`normalize_memories` posts the snippets and parses the completion
content with `json.loads`; the JSON value model and parser below follow
Python's `json` semantics on byte strings (objects keep their members in
order, later duplicates winning on lookup). -/

/-- A JSON value. -/
inductive Json where
  | null : Json
  | bool (b : Bool) : Json
  | num (v : ℚ) : Json
  | str (s : Str) : Json
  | arr (items : List Json) : Json
  | obj (members : List (Str × Json)) : Json

/-- Python truthiness of a JSON value. -/
def jsonTruthy : Json → Bool
  | .null => false
  | .bool b => b
  | .num v => decide (v ≠ 0)
  | .str s => decide (s ≠ [])
  | .arr items => !items.isEmpty
  | .obj members => !members.isEmpty

/-- `dict.get` on a parsed JSON object (later duplicate keys win). -/
def jsonGet (members : List (Str × Json)) (key : Str) : Option Json :=
  members.reverse.lookup key

/-- Skip JSON whitespace. -/
def skipWs (bs : List Nat) : List Nat :=
  bs.dropWhile fun b => b == 32 || b == 9 || b == 10 || b == 13

/-- UTF-8 encoding of one code point (for `\uXXXX` escapes). -/
def utf8Encode (c : Nat) : List Nat :=
  if c < 128 then [c]
  else if c < 2048 then [192 + c / 64, 128 + c % 64]
  else [224 + c / 4096, 128 + c / 64 % 64, 128 + c % 64]

/-- One hex digit value, if the byte is a hex digit. -/
def hexVal (b : Nat) : Option Nat :=
  if 48 ≤ b ∧ b ≤ 57 then some (b - 48)
  else if 97 ≤ b ∧ b ≤ 102 then some (b - 87)
  else if 65 ≤ b ∧ b ≤ 70 then some (b - 55)
  else none

/-- Parse the body of a JSON string (after the opening quote). -/
def parseStringBody : Nat → List Nat → Option (Str × List Nat)
  | 0, _ => none
  | _, [] => none
  | fuel + 1, b :: rest =>
    if b = 34 then some ([], rest)
    else if b = 92 then
      match rest with
      | [] => none
      | e :: rest2 =>
        let decoded : Option (Str × List Nat) :=
          if e = 34 then some ([34], rest2)
          else if e = 92 then some ([92], rest2)
          else if e = 47 then some ([47], rest2)
          else if e = 98 then some ([8], rest2)
          else if e = 102 then some ([12], rest2)
          else if e = 110 then some ([10], rest2)
          else if e = 114 then some ([13], rest2)
          else if e = 116 then some ([9], rest2)
          else if e = 117 then
            match rest2 with
            | h1 :: h2 :: h3 :: h4 :: rest3 =>
              match hexVal h1, hexVal h2, hexVal h3, hexVal h4 with
              | some v1, some v2, some v3, some v4 =>
                some (utf8Encode (v1 * 4096 + v2 * 256 + v3 * 16 + v4), rest3)
              | _, _, _, _ => none
            | _ => none
          else none
        match decoded with
        | some (bytes, rest3) =>
          match parseStringBody fuel rest3 with
          | some (tail, rest4) => some (bytes ++ tail, rest4)
          | none => none
        | none => none
    else if b < 32 then none
    else
      match parseStringBody fuel rest with
      | some (tail, rest2) => some (b :: tail, rest2)
      | none => none

/-- Digits prefix of a byte list. -/
def takeDigits (bs : List Nat) : List Nat × List Nat :=
  (bs.takeWhile fun b => 48 ≤ b && b ≤ 57, bs.dropWhile fun b => 48 ≤ b && b ≤ 57)

/-- Natural number value of a digit run. -/
def digitsVal (ds : List Nat) : Nat :=
  ds.foldl (fun acc d => acc * 10 + (d - 48)) 0

/-- Parse a JSON number starting at the current position. -/
def parseNumber (bs : List Nat) : Option (ℚ × List Nat) :=
  let signed := bs.head? = some 45
  let bs1 := if signed then bs.drop 1 else bs
  let intPart := takeDigits bs1
  if intPart.1 = [] then none
  else
    let fracPart : Option (List Nat) × List Nat :=
      match intPart.2 with
      | 46 :: rest =>
        let d := takeDigits rest
        if d.1 = [] then (none, intPart.2) else (some d.1, d.2)
      | _ => (none, intPart.2)
    match fracPart.1, fracPart with
    | _, (fracDigits, afterFrac) =>
      let expPart : Option (Bool × List Nat) × List Nat :=
        match afterFrac with
        | e :: rest =>
          if e = 101 ∨ e = 69 then
            match rest with
            | 45 :: rest2 =>
              let d := takeDigits rest2
              if d.1 = [] then (none, afterFrac) else (some (true, d.1), d.2)
            | 43 :: rest2 =>
              let d := takeDigits rest2
              if d.1 = [] then (none, afterFrac) else (some (false, d.1), d.2)
            | _ =>
              let d := takeDigits rest
              if d.1 = [] then (none, afterFrac) else (some (false, d.1), d.2)
          else (none, afterFrac)
        | [] => (none, afterFrac)
      let mantissa : ℚ := (digitsVal intPart.1 : ℚ) +
        (match fracDigits with
         | some ds => (digitsVal ds : ℚ) / ((10 : ℚ) ^ ds.length)
         | none => 0)
      let scaled : ℚ :=
        match expPart.1 with
        | some (true, ds) => mantissa / ((10 : ℚ) ^ digitsVal ds)
        | some (false, ds) => mantissa * ((10 : ℚ) ^ digitsVal ds)
        | none => mantissa
      some (if signed then -scaled else scaled, expPart.2)

mutual

/-- Parse one JSON value (leading whitespace already skipped). -/
def parseValue : Nat → List Nat → Option (Json × List Nat)
  | 0, _ => none
  | _, [] => none
  | fuel + 1, bs =>
    match bs with
    | 110 :: 117 :: 108 :: 108 :: rest => some (.null, rest)
    | 116 :: 114 :: 117 :: 101 :: rest => some (.bool true, rest)
    | 102 :: 97 :: 108 :: 115 :: 101 :: rest => some (.bool false, rest)
    | 34 :: rest =>
      match parseStringBody bs.length rest with
      | some (s, rest2) => some (.str s, rest2)
      | none => none
    | 91 :: rest =>
      match skipWs rest with
      | 93 :: rest2 => some (.arr [], rest2)
      | rest2 =>
        match parseElements fuel rest2 with
        | some (items, rest3) => some (.arr items, rest3)
        | none => none
    | 123 :: rest =>
      match skipWs rest with
      | 125 :: rest2 => some (.obj [], rest2)
      | rest2 =>
        match parseMembers fuel rest2 with
        | some (members, rest3) => some (.obj members, rest3)
        | none => none
    | _ =>
      match parseNumber bs with
      | some (v, rest) => some (.num v, rest)
      | none => none

/-- Parse the comma-separated elements of a non-empty array. -/
def parseElements : Nat → List Nat → Option (List Json × List Nat)
  | 0, _ => none
  | fuel + 1, bs =>
    match parseValue fuel bs with
    | some (v, rest) =>
      match skipWs rest with
      | 44 :: rest2 =>
        match parseElements fuel (skipWs rest2) with
        | some (items, rest3) => some (v :: items, rest3)
        | none => none
      | 93 :: rest2 => some ([v], rest2)
      | _ => none
    | none => none

/-- Parse the comma-separated members of a non-empty object. -/
def parseMembers : Nat → List Nat → Option (List (Str × Json) × List Nat)
  | 0, _ => none
  | fuel + 1, bs =>
    match bs with
    | 34 :: rest =>
      match parseStringBody bs.length rest with
      | some (key, rest2) =>
        match skipWs rest2 with
        | 58 :: rest3 =>
          match parseValue fuel (skipWs rest3) with
          | some (v, rest4) =>
            match skipWs rest4 with
            | 44 :: rest5 =>
              match parseMembers fuel (skipWs rest5) with
              | some (members, rest6) => some ((key, v) :: members, rest6)
              | none => none
            | 125 :: rest5 => some ([(key, v)], rest5)
            | _ => none
          | none => none
        | _ => none
      | none => none
    | _ => none

end

/-- `json.loads` on a byte string: one JSON value with only whitespace
around it, `None` on a decode error. -/
def jsonLoads (bs : Str) : Option Json :=
  match parseValue (bs.length + 1) (skipWs bs) with
  | some (v, rest) => if skipWs rest = [] then some v else none
  | none => none

/-- Python `str.splitlines` over the line boundaries that occur in byte
strings (`\n`, `\r`, `\r\n`, `\v`, `\f`, FS, GS, RS). -/
def splitLines : List Nat → Str → List Str
  | [], acc => if acc = [] then [] else [acc.reverse]
  | 13 :: 10 :: rest, acc => acc.reverse :: splitLines rest []
  | b :: rest, acc =>
    if b = 10 ∨ b = 13 ∨ b = 11 ∨ b = 12 ∨ b = 28 ∨ b = 29 ∨ b = 30 then
      acc.reverse :: splitLines rest []
    else splitLines rest (b :: acc)

/-- Python `line.strip("- ")`: drop `-` and space from both ends. -/
def stripDashSpace (s : Str) : Str :=
  let p : Nat → Bool := fun b => b == 45 || b == 32
  ((s.dropWhile p).reverse.dropWhile p).reverse

/-- The memory extracted from one parsed JSON array element: skip
non-objects, truthy `skip` fields, and non-string or blank `memory`
fields; keep the stripped memory sentence. -/
def itemMemory (item : Json) : Option Str :=
  match item with
  | .obj members =>
    if (jsonGet members (ascii "skip")).elim false jsonTruthy then none
    else
      match jsonGet members (ascii "memory") with
      | some (.str m) => if pyStrip m = [] then none else some (pyStrip m)
      | _ => none
  | _ => none

/-- The line-based fallback: split into lines, keep those with
non-blank content, stripped of surrounding `-` and spaces. -/
def fallbackLines (content : Str) : List Str :=
  (splitLines content []).filterMap fun line =>
    if pyStrip line = [] then none else some (stripDashSpace line)

/-- `OpenRouterClient.normalize_memories(texts)`: `response` is the
completion content of a successful HTTP exchange, or `none` when the
transport or retries failed.  Empty input short-circuits; a JSON array
yielding at least one memory wins; otherwise non-empty fallback lines;
otherwise the original input. -/
def normalizeMemories (payload : List Str) (response : Option Str) : List Str :=
  if payload = [] then []
  else
    match response with
    | none => payload
    | some content0 =>
      let content := pyStrip content0
      let normalized :=
        match jsonLoads content with
        | some (.arr items) => items.filterMap itemMemory
        | _ => []
      if normalized ≠ [] then normalized
      else
        let fallback := fallbackLines content
        if fallback ≠ [] then fallback else payload

/-! ## Hash format and distinctness lemmas -/

theorem length_toBytesBE (n x : Nat) : (toBytesBE n x).length = n := by
  simp [toBytesBE]

theorem length_bytesToHex (bs : List Nat) : (bytesToHex bs).length = 2 * bs.length := by
  induction bs with
  | nil => simp [bytesToHex]
  | cons b bs ih =>
    simp only [bytesToHex, List.flatMap_cons] at *
    simp [ih]
    omega

theorem hexDigit_mem (n : Nat) : hexDigit n ∈ hexDigits := by
  have h : n % 16 < 16 := Nat.mod_lt _ (by norm_num)
  unfold hexDigit
  interval_cases h : (n % 16) <;> decide

theorem mem_bytesToHex {c : Nat} {bs : List Nat} (h : c ∈ bytesToHex bs) : c ∈ hexDigits := by
  induction bs with
  | nil => simp [bytesToHex] at h
  | cons b bs ih =>
    simp only [bytesToHex, List.flatMap_cons, List.mem_append, List.mem_cons] at h
    rcases h with (h | h | h) | h
    · exact h ▸ hexDigit_mem _
    · exact h ▸ hexDigit_mem _
    · simp at h
    · exact ih (by simpa [bytesToHex] using h)

theorem length_sha256Bytes (m : List Nat) : (sha256Bytes m).length = 32 := by
  simp [sha256Bytes, length_toBytesBE]

theorem length_computeHash (org agent user text : Str) :
    (computeHash org agent user text).length = 64 := by
  unfold computeHash sha256Hex
  rw [length_bytesToHex, length_sha256Bytes]

theorem hashMessage_inj_org {o o2 a u t : Str}
    (h : hashMessage o a u t = hashMessage o2 a u t) : o = o2 := by
  unfold hashMessage at h
  simp only [List.append_assoc] at h
  exact List.append_cancel_right h

theorem hashMessage_inj_agent {o a a2 u t : Str}
    (h : hashMessage o a u t = hashMessage o a2 u t) : a = a2 := by
  unfold hashMessage at h
  simp only [List.append_assoc] at h
  exact List.append_cancel_right (List.append_cancel_left (List.append_cancel_left h))

theorem hashMessage_inj_user {o a u u2 t : Str}
    (h : hashMessage o a u t = hashMessage o a u2 t) : u = u2 := by
  unfold hashMessage at h
  simp only [List.append_assoc] at h
  exact List.append_cancel_right
    (List.append_cancel_left (List.append_cancel_left
      (List.append_cancel_left (List.append_cancel_left h))))

theorem hashMessage_inj_text {o a u t t2 : Str}
    (h : hashMessage o a u t = hashMessage o a u t2) : t = t2 := by
  unfold hashMessage at h
  simp only [List.append_assoc] at h
  exact List.append_cancel_left (List.append_cancel_left
    (List.append_cancel_left (List.append_cancel_left
      (List.append_cancel_left (List.append_cancel_left h)))))

/-- All eight state words are reduced 32-bit values. -/
def stateLt (s : Sha256State) : Prop :=
  s.a < M32 ∧ s.b < M32 ∧ s.c < M32 ∧ s.d < M32 ∧
    s.e < M32 ∧ s.f < M32 ∧ s.g < M32 ∧ s.h < M32

theorem stateLt_compress (hs : Sha256State) (b : List Nat) :
    stateLt (sha256Compress hs b) := by
  refine ⟨?_, ?_, ?_, ?_, ?_, ?_, ?_, ?_⟩ <;>
    exact Nat.mod_lt _ (by norm_num [M32])

theorem stateLt_foldl (blocks : List (List Nat)) (s : Sha256State) (hs : stateLt s) :
    stateLt (blocks.foldl (fun hs b => sha256Compress hs (bytesToWords b)) s) := by
  induction blocks generalizing s with
  | nil => exact hs
  | cons b bs ih => exact ih _ (stateLt_compress _ _)

theorem stateLt_final (m : List Nat) : stateLt (sha256Final m) := by
  unfold sha256Final
  exact stateLt_foldl _ _ (by refine ⟨?_, ?_, ?_, ?_, ?_, ?_, ?_, ?_⟩ <;> norm_num [sha256H0, M32])

/-- The SHA-256 final state packed into a finite type (for counting). -/
def sha256FinalVec (m : List Nat) :
    Fin M32 × Fin M32 × Fin M32 × Fin M32 × Fin M32 × Fin M32 × Fin M32 × Fin M32 :=
  let s := sha256Final m
  (⟨s.a % M32, Nat.mod_lt _ (by norm_num [M32])⟩, ⟨s.b % M32, Nat.mod_lt _ (by norm_num [M32])⟩,
   ⟨s.c % M32, Nat.mod_lt _ (by norm_num [M32])⟩, ⟨s.d % M32, Nat.mod_lt _ (by norm_num [M32])⟩,
   ⟨s.e % M32, Nat.mod_lt _ (by norm_num [M32])⟩, ⟨s.f % M32, Nat.mod_lt _ (by norm_num [M32])⟩,
   ⟨s.g % M32, Nat.mod_lt _ (by norm_num [M32])⟩, ⟨s.h % M32, Nat.mod_lt _ (by norm_num [M32])⟩)

theorem sha256Final_eq_of_vec_eq {m1 m2 : List Nat}
    (h : sha256FinalVec m1 = sha256FinalVec m2) : sha256Final m1 = sha256Final m2 := by
  obtain ⟨a1, b1, c1, d1, e1, f1, g1, h1⟩ := stateLt_final m1
  obtain ⟨a2, b2, c2, d2, e2, f2, g2, h2⟩ := stateLt_final m2
  unfold sha256FinalVec at h
  simp only [Prod.mk.injEq, Fin.mk.injEq] at h
  obtain ⟨ea, eb, ec, ed, ee, ef, eg, eh⟩ := h
  rw [Nat.mod_eq_of_lt a1, Nat.mod_eq_of_lt a2] at ea
  rw [Nat.mod_eq_of_lt b1, Nat.mod_eq_of_lt b2] at eb
  rw [Nat.mod_eq_of_lt c1, Nat.mod_eq_of_lt c2] at ec
  rw [Nat.mod_eq_of_lt d1, Nat.mod_eq_of_lt d2] at ed
  rw [Nat.mod_eq_of_lt e1, Nat.mod_eq_of_lt e2] at ee
  rw [Nat.mod_eq_of_lt f1, Nat.mod_eq_of_lt f2] at ef
  rw [Nat.mod_eq_of_lt g1, Nat.mod_eq_of_lt g2] at eg
  rw [Nat.mod_eq_of_lt h1, Nat.mod_eq_of_lt h2] at eh
  cases hm1 : sha256Final m1
  cases hm2 : sha256Final m2
  simp_all

theorem sha256Hex_eq_of_final_eq {m1 m2 : List Nat}
    (h : sha256Final m1 = sha256Final m2) : sha256Hex m1 = sha256Hex m2 := by
  unfold sha256Hex sha256Bytes
  rw [h]

/-- C4 counterexample helper: all byte values are below 256. -/
def ValidBytes (s : Str) : Prop := ∀ b ∈ s, b < 256

/-- C4: the claim that any single-field change yields a different hash
value, stated for all (byte-valid) strings, is false: a 256-bit digest
cannot separate infinitely many distinct `org_id` values, so two
distinct org ids share a hash (pigeonhole; no explicit pair is known,
but the universally quantified sentence is disproved). -/
theorem computeHash_single_field_change_not_injective :
    ¬ (∀ org1 org2 agentId userId text : Str,
        ValidBytes org1 → ValidBytes org2 → ValidBytes agentId →
        ValidBytes userId → ValidBytes text → org1 ≠ org2 →
        computeHash org1 agentId userId text ≠ computeHash org2 agentId userId text) := by
  intro hclaim
  obtain ⟨x, y, hxy, heq⟩ := Finite.exists_ne_map_eq_of_infinite
    (fun n : ℕ => sha256FinalVec (hashMessage (List.replicate n 0) [] [] []))
  have hne : List.replicate x 0 ≠ List.replicate y 0 := by
    intro h
    exact hxy (by simpa using congrArg List.length h)
  have hhash : computeHash (List.replicate x 0) [] [] [] =
      computeHash (List.replicate y 0) [] [] [] :=
    sha256Hex_eq_of_final_eq (sha256Final_eq_of_vec_eq heq)
  exact hclaim (List.replicate x 0) (List.replicate y 0) [] [] []
    (by simp [ValidBytes]) (by simp [ValidBytes]) (by simp [ValidBytes])
    (by simp [ValidBytes]) (by simp [ValidBytes]) hne hhash

/-- C4 (amended): `compute_hash` returns a 64-character lowercase-hex
string, equal to the SHA-256 hex digest of the four fields joined by
`|` separators in order; and changing exactly one of the four fields
(the other three fixed) always changes the byte string being hashed, so
the hash changes unless SHA-256 itself collides on the two distinct
messages. -/
theorem computeHash_spec (org org2 agent agent2 user user2 text text2 : Str) :
    (computeHash org agent user text).length = 64 ∧
    (∀ c ∈ computeHash org agent user text, c ∈ hexDigits) ∧
    computeHash org agent user text =
      sha256Hex (org ++ [124] ++ agent ++ [124] ++ user ++ [124] ++ text) ∧
    (org ≠ org2 → hashMessage org agent user text ≠ hashMessage org2 agent user text) ∧
    (agent ≠ agent2 → hashMessage org agent user text ≠ hashMessage org agent2 user text) ∧
    (user ≠ user2 → hashMessage org agent user text ≠ hashMessage org agent user2 text) ∧
    (text ≠ text2 → hashMessage org agent user text ≠ hashMessage org agent user text2) := by
  refine ⟨length_computeHash org agent user text, ?_, rfl, ?_, ?_, ?_, ?_⟩
  · intro c hc
    exact mem_bytesToHex hc
  · exact fun h hmsg => h (hashMessage_inj_org hmsg)
  · exact fun h hmsg => h (hashMessage_inj_agent hmsg)
  · exact fun h hmsg => h (hashMessage_inj_user hmsg)
  · exact fun h hmsg => h (hashMessage_inj_text hmsg)

/-- C4 witness: the spec theorem applied at concrete fields. -/
theorem computeHash_spec_witness :
    (computeHash [97] [98] [99] [100]).length = 64 ∧
    hashMessage [97] [98] [99] [100] ≠ hashMessage [98] [98] [99] [100] := by
  have h := computeHash_spec [97] [98] [98] [99] [99] [100] [100] [101]
  exact ⟨h.1, h.2.2.2.1 (by decide)⟩

/-! ## Time decay and search ranking (C9) -/

/-- C9 counterexample: with equal raw store scores of `0`, a hit created
180 days before `now` and a hit created at `now` fall in distinct day
buckets, yet the more recent hit's decayed score is not strictly
greater (both decayed scores are `0`). -/
theorem applyTimeDecay_zero_score_not_strict :
    decayDays (-15552000) 0 ≠ decayDays 0 0 ∧
    ¬ applyTimeDecay 0 (-15552000) 0 < applyTimeDecay 0 0 0 := by
  constructor
  · decide
  · simp [applyTimeDecay]

/-- C9 (amended): `MemoryCore.search` returns a permutation of the
repository hits rescaled by `score * 0.5 ^ (days / 90)` with
`days = max(0, floor((now - created_at) in days))`, sorted by decayed
score descending; and for two hits with equal *strictly positive* raw
scores in distinct day buckets, the more recently created one gets the
strictly greater decayed score. -/
theorem memSearch_time_decay_spec (settings : Settings) (sim : Vec → Option Vec → ℚ)
    (embedQuery : Str → Vec) (store : Store) (orgId agentId : Str)
    (req : SearchRequest) (now : Int) :
    (memSearch settings sim embedQuery store orgId agentId req now).Pairwise
      (fun h1 h2 => h2.score ≤ h1.score) ∧
    (memSearch settings sim embedQuery store orgId agentId req now).Perm
      ((repoSearch sim store (embedQuery req.query)
          (if req.k = 0 then
            resolveTopK settings.core (resolveOverrides settings.core orgId agentId)
          else req.k)
          orgId agentId req.scope
          (if req.tags = [] then none else some req.tags)).map fun h =>
        MemoryHit.mk h.id (applyTimeDecay (h.score : ℝ) h.payload.created_at now)
          h.text h.payload) ∧
    (∀ (s : ℝ) (cOld cRecent : Int), 0 < s →
      decayDays cRecent now < decayDays cOld now →
      applyTimeDecay s cOld now < applyTimeDecay s cRecent now) := by
  have htrans : ∀ a b c : MemoryHit,
      (decide (b.score ≤ a.score)) = true → (decide (c.score ≤ b.score)) = true →
      (decide (c.score ≤ a.score)) = true := by
    intro a b c hab hbc
    simp only [decide_eq_true_eq] at *
    exact le_trans hbc hab
  have htotal : ∀ a b : MemoryHit,
      (decide (b.score ≤ a.score) || decide (a.score ≤ b.score)) = true := by
    intro a b
    simp only [Bool.or_eq_true, decide_eq_true_eq]
    exact le_total _ _
  refine ⟨?_, ?_, ?_⟩
  · have h := List.sorted_mergeSort htrans htotal
      ((repoSearch sim store (embedQuery req.query)
          (if req.k = 0 then
            resolveTopK settings.core (resolveOverrides settings.core orgId agentId)
          else req.k)
          orgId agentId req.scope
          (if req.tags = [] then none else some req.tags)).map fun h =>
        MemoryHit.mk h.id (applyTimeDecay (h.score : ℝ) h.payload.created_at now)
          h.text h.payload)
    simp only [memSearch]
    exact h.imp fun hd => by simpa using hd
  · simp only [memSearch]
    exact List.mergeSort_perm _ _
  · intro s cOld cRecent hs hdays
    unfold applyTimeDecay
    refine mul_lt_mul_of_pos_left ?_ hs
    refine Real.rpow_lt_rpow_of_exponent_gt (by norm_num) (by norm_num) ?_
    have hcast : (decayDays cRecent now : ℝ) < (decayDays cOld now : ℝ) := by
      exact_mod_cast hdays
    linarith

/-- C9 witness: the decay monotonicity applied at score 1 and
timestamps one day apart. -/
theorem memSearch_time_decay_spec_witness :
    (0 : ℝ) < 1 ∧ decayDays 0 0 < decayDays (-86400) 0 ∧
    applyTimeDecay 1 (-86400) 0 < applyTimeDecay 1 0 0 := by
  refine ⟨by norm_num, by decide, ?_⟩
  exact (memSearch_time_decay_spec defaultSettings (fun _ _ => 0) (fun _ => []) []
    (ascii "org") (ascii "agent") ⟨ascii "q", none, 6, none, []⟩ 0).2.2 1 (-86400) 0
    (by norm_num) (by decide)

/-! ## Response normalization strategies (C6) -/

/-- The JSON parsing strategy of `normalize_memories`: parse the content
as a JSON array and keep the stripped non-empty `memory` fields of
object elements whose `skip` field is falsy. -/
def jsonStrategy (content : Str) : List Str :=
  match jsonLoads content with
  | some (.arr items) => items.filterMap itemMemory
  | _ => []

/-- C6 counterexample: on the content `"[]"` — which parses as a JSON
array — the code still applies the line-based fallback and returns the
literal line `"[]"`; the claim requires the result to come from the
JSON strategy (the empty list) or, failing both strategies, to be the
original input `["hello"]`, and it is neither. -/
theorem normalizeMemories_fallback_after_json_cex :
    jsonLoads (pyStrip (ascii "[]")) = some (Json.arr []) ∧
    normalizeMemories [ascii "hello"] (some (ascii "[]")) = [ascii "[]"] ∧
    normalizeMemories [ascii "hello"] (some (ascii "[]")) ≠ [] ∧
    normalizeMemories [ascii "hello"] (some (ascii "[]")) ≠ [ascii "hello"] := by
  exact ⟨rfl, by decide, by decide, by decide⟩

/-- C6 (amended): for a non-empty input batch and a successful HTTP
response with content `c`, the result is the JSON strategy when it
yields at least one memory; otherwise — including when `c` parses as
JSON but produces no memories (non-array, empty array, all elements
skipped or blank) — the line-based parsing of `c` (lines with non-blank
content, each stripped of surrounding `-` and space characters) when it
is non-empty; otherwise the original input unchanged.  A transport or
retry error returns the original input unchanged. -/
theorem normalizeMemories_strategy_order (payload : List Str) (content : Str)
    (h : payload ≠ []) :
    normalizeMemories payload (some content) =
      (if jsonStrategy (pyStrip content) ≠ [] then jsonStrategy (pyStrip content)
       else if fallbackLines (pyStrip content) ≠ [] then fallbackLines (pyStrip content)
       else payload) ∧
    normalizeMemories payload none = payload := by
  constructor
  · simp only [normalizeMemories, jsonStrategy, if_neg h]
  · simp only [normalizeMemories, if_neg h]

/-- C6 witness: the strategy-order theorem applied to the batch
`["hello"]` and the content `"- tea"`. -/
theorem normalizeMemories_strategy_order_witness :
    ([ascii "hello"] : List Str) ≠ [] ∧
    normalizeMemories [ascii "hello"] (some (ascii "- tea")) =
      (if jsonStrategy (pyStrip (ascii "- tea")) ≠ [] then jsonStrategy (pyStrip (ascii "- tea"))
       else if fallbackLines (pyStrip (ascii "- tea")) ≠ [] then
        fallbackLines (pyStrip (ascii "- tea"))
       else [ascii "hello"]) := by
  exact ⟨by decide, (normalizeMemories_strategy_order [ascii "hello"] (ascii "- tea")
    (by decide)).1⟩

/-! ## Override cascade (C7) -/

/-- Agent-level overrides used in the cascade scenarios: only the
retrieval policy is set. -/
def c7AgentOv : TenantOverrides :=
  { write := none, retrieval := some ⟨9, 64, true⟩, collection := none,
    model := none, embedding_dims := none }

/-- Org-level overrides where the YAML sets only `write.deduplicate`:
pydantic materialises a whole `WritePolicy` whose other fields are the
model defaults (in particular `min_chars = 12`), not the globals. -/
def c7OrgOv : TenantOverrides :=
  { write := some { defaultWritePolicy with deduplicate := false }, retrieval := none,
    collection := none, model := none, embedding_dims := none }

/-- The `acme` organisation entry with one agent `a1`. -/
def c7Org : OrgConfig := ⟨c7OrgOv, [(ascii "a1", c7AgentOv)]⟩

/-- Global configuration whose write policy raises `min_chars` to 20. -/
def c7Core : CoreConfig :=
  { write := { defaultWritePolicy with min_chars := 20 }
    retrieval := defaultRetrievalPolicy
    model := ascii "openrouter/auto"
    embedding_dims := 768
    organisations := [(ascii "acme", c7Org)] }

/-- C7 counterexample: the globals set `write.min_chars = 20` and the
`acme` org sets only `write.deduplicate = false` (its materialised
write policy carries the model default `min_chars = 12`).  The claim
says the unset sub-field `write.min_chars` inherits `20` from the level
below, but the resolved policy replaces the whole write sub-policy, so
the effective `min_chars` is `12`. -/
theorem resolveOverrides_subpolicy_not_per_field_cex :
    (buildPolicyEngine c7Core (resolveOverrides c7Core (ascii "acme")
      (ascii "a2"))).deduplicate = false ∧
    c7Core.write.min_chars = 20 ∧
    (buildPolicyEngine c7Core (resolveOverrides c7Core (ascii "acme")
      (ascii "a2"))).min_chars = 12 ∧
    (buildPolicyEngine c7Core (resolveOverrides c7Core (ascii "acme")
      (ascii "a2"))).min_chars ≠ c7Core.write.min_chars := by
  exact ⟨by decide, by decide, by decide, by decide⟩

/-- C7 (amended): the overlay is per-field at the granularity of the
five override slots (`write`, `retrieval`, `collection`, `model`,
`embedding_dims`): an unknown org resolves to the empty overrides (the
global defaults), an unknown or empty agent leaves the org overrides,
and a known agent overrides each slot it sets, whole sub-policy at a
time, falling back through org to the global value only per slot. -/
theorem resolveOverrides_per_field_spec (core : CoreConfig) (orgId agentId : Str) :
    (core.organisations.lookup orgId = none →
      resolveOverrides core orgId agentId = emptyOverrides ∧
      buildPolicyEngine core (resolveOverrides core orgId agentId) = core.write) ∧
    (∀ oc, core.organisations.lookup orgId = some oc →
      ((agentId = [] ∨ oc.agents.lookup agentId = none) →
        resolveOverrides core orgId agentId = oc.overrides) ∧
      (∀ ag, agentId ≠ [] → oc.agents.lookup agentId = some ag →
        resolveOverrides core orgId agentId =
          ⟨ag.write.or oc.overrides.write, ag.retrieval.or oc.overrides.retrieval,
           ag.collection.or oc.overrides.collection,
           pyOrStr ag.model oc.overrides.model,
           pyOrNat ag.embedding_dims oc.overrides.embedding_dims⟩ ∧
        buildPolicyEngine core (resolveOverrides core orgId agentId) =
          (ag.write.or oc.overrides.write).getD core.write)) := by
  constructor
  · intro hnone
    constructor
    · simp [resolveOverrides, hnone]
    · simp [resolveOverrides, hnone, buildPolicyEngine, emptyOverrides]
  · intro oc hsome
    constructor
    · intro hag
      rcases hag with hag | hag
      · simp [resolveOverrides, hsome, hag]
      · by_cases he : agentId = []
        · simp [resolveOverrides, hsome, he]
        · simp [resolveOverrides, hsome, he, hag]
    · intro ag hne hag
      constructor
      · simp [resolveOverrides, hsome, hne, hag]
      · simp [resolveOverrides, hsome, hne, hag, buildPolicyEngine]

/-- C7 witness: the cascade theorem applied to the concrete `acme`/`a1`
configuration. -/
theorem resolveOverrides_per_field_spec_witness :
    c7Core.organisations.lookup (ascii "acme") = some c7Org ∧
    resolveOverrides c7Core (ascii "acme") (ascii "a1") =
      ⟨c7AgentOv.write.or c7OrgOv.write, c7AgentOv.retrieval.or c7OrgOv.retrieval,
       c7AgentOv.collection.or c7OrgOv.collection, pyOrStr c7AgentOv.model c7OrgOv.model,
       pyOrNat c7AgentOv.embedding_dims c7OrgOv.embedding_dims⟩ := by
  refine ⟨by decide, ?_⟩
  exact (((resolveOverrides_per_field_spec c7Core (ascii "acme") (ascii "a1")).2 c7Org
    (by decide)).2 c7AgentOv (by decide) (by decide)).1

/-! ## The add pipeline: policy gate and embedding batches (C5, C8) -/

/-- C5: when every candidate text (after normalization) is rejected by
the write policy, `add` returns the empty list, issues no embedding
call and no upsert, and leaves the store unchanged. -/
theorem memAdd_policy_gate_frame (settings : Settings) (normalizeFn : List Str → List Str)
    (embed : List Str → List Vec) (store : Store) (orgId agentId : Str)
    (req : MemoryAddRequest) (now : Int)
    (h : ∀ t ∈ addCandidates
        (buildPolicyEngine settings.core (resolveOverrides settings.core orgId agentId))
        normalizeFn req,
      shouldPersist
        (buildPolicyEngine settings.core (resolveOverrides settings.core orgId agentId)) t
        (addScope req) = false) :
    memAdd settings normalizeFn embed store orgId agentId req now = ⟨[], store, [], []⟩ := by
  have hsurv : survivingTexts
      (buildPolicyEngine settings.core (resolveOverrides settings.core orgId agentId))
      normalizeFn req = [] := by
    refine List.filter_eq_nil_iff.mpr fun t ht => ?_
    simp [h t ht]
  unfold memAdd
  by_cases hc : strippedCandidates req = []
  · simp [hc]
  · simp [hc, hsurv]

/-- C5 witness: adding `"hi"` under the default policy
(`min_chars = 12`, identity normalization) changes nothing. -/
theorem memAdd_policy_gate_frame_witness :
    (∀ t ∈ addCandidates
        (buildPolicyEngine defaultSettings.core
          (resolveOverrides defaultSettings.core (ascii "org-1") (ascii "agent-1")))
        id
        ⟨ascii "user-1", none, some (ascii "hi"), none, [], none, 365⟩,
      shouldPersist
        (buildPolicyEngine defaultSettings.core
          (resolveOverrides defaultSettings.core (ascii "org-1") (ascii "agent-1"))) t
        (addScope ⟨ascii "user-1", none, some (ascii "hi"), none, [], none, 365⟩) = false) ∧
    memAdd defaultSettings id (fun ts => ts.map fun _ => []) [] (ascii "org-1")
      (ascii "agent-1") ⟨ascii "user-1", none, some (ascii "hi"), none, [], none, 365⟩ 0 =
      ⟨[], [], [], []⟩ := by
  refine ⟨by decide, ?_⟩
  exact memAdd_policy_gate_frame defaultSettings id (fun ts => ts.map fun _ => []) []
    (ascii "org-1") (ascii "agent-1") ⟨ascii "user-1", none, some (ascii "hi"), none, [], none, 365⟩
    0 (by decide)

/-- The embedding calls of one `add` run: none when the pipeline exits
early, otherwise exactly one call carrying every surviving text. -/
theorem memAdd_embedCalls_eq (settings : Settings) (normalizeFn : List Str → List Str)
    (embed : List Str → List Vec) (store : Store) (orgId agentId : Str)
    (req : MemoryAddRequest) (now : Int) :
    (memAdd settings normalizeFn embed store orgId agentId req now).embedCalls =
      if strippedCandidates req = [] ∨
          survivingTexts
            (buildPolicyEngine settings.core (resolveOverrides settings.core orgId agentId))
            normalizeFn req = [] then []
      else
        [survivingTexts
          (buildPolicyEngine settings.core (resolveOverrides settings.core orgId agentId))
          normalizeFn req] := by
  unfold memAdd
  by_cases hc : strippedCandidates req = []
  · simp [hc]
  · by_cases hs : survivingTexts
        (buildPolicyEngine settings.core (resolveOverrides settings.core orgId agentId))
        normalizeFn req = []
    · simp [hc, hs]
    · simp [hc, hs]

/-- C8 (amended): the embedding client receives every surviving
candidate in a single request — `max_batch` imposes no chunking and no
bound on the request size. -/
theorem memAdd_embed_single_unchunked_batch (settings : Settings)
    (normalizeFn : List Str → List Str) (embed : List Str → List Vec) (store : Store)
    (orgId agentId : Str) (req : MemoryAddRequest) (now : Int)
    (hc : strippedCandidates req ≠ [])
    (hs : survivingTexts
        (buildPolicyEngine settings.core (resolveOverrides settings.core orgId agentId))
        normalizeFn req ≠ []) :
    (memAdd settings normalizeFn embed store orgId agentId req now).embedCalls =
      [survivingTexts
        (buildPolicyEngine settings.core (resolveOverrides settings.core orgId agentId))
        normalizeFn req] := by
  rw [memAdd_embedCalls_eq]
  simp [hc, hs]

/-- The add request of the C8 counterexample: 33 identical long
messages under the default policy (`max_batch = 32`). -/
def c8Req : MemoryAddRequest :=
  ⟨ascii "user-1", some (List.replicate 33 (some (ascii "a genuinely long memory"))),
    none, none, [], none, 365⟩

/-- C8 counterexample: an add with 33 surviving candidates issues one
embedding call of 33 texts under the default `max_batch = 32`, so the
embedding client is invoked with more than `max_batch` texts. -/
theorem memAdd_embed_exceeds_max_batch_cex :
    ((memAdd defaultSettings id (fun ts => ts.map fun _ => []) [] (ascii "org-1")
        (ascii "agent-1") c8Req 0).embedCalls.map List.length) = [33] ∧
    (buildPolicyEngine defaultSettings.core
      (resolveOverrides defaultSettings.core (ascii "org-1") (ascii "agent-1"))).max_batch =
      32 ∧ ¬ (33 : Nat) ≤ 32 := by
  refine ⟨?_, by decide, by decide⟩
  rw [memAdd_embedCalls_eq]
  have hc : ¬ (strippedCandidates c8Req = [] ∨
      survivingTexts
        (buildPolicyEngine defaultSettings.core
          (resolveOverrides defaultSettings.core (ascii "org-1") (ascii "agent-1")))
        id c8Req = []) := by decide
  rw [if_neg hc]
  decide

/-- C8 witness: the single-batch theorem applied to the 33-message
request. -/
theorem memAdd_embed_single_unchunked_batch_witness :
    strippedCandidates c8Req ≠ [] ∧
    (memAdd defaultSettings id (fun ts => ts.map fun _ => []) [] (ascii "org-1")
        (ascii "agent-1") c8Req 0).embedCalls =
      [survivingTexts
        (buildPolicyEngine defaultSettings.core
          (resolveOverrides defaultSettings.core (ascii "org-1") (ascii "agent-1")))
        id c8Req] := by
  refine ⟨by decide, ?_⟩
  exact memAdd_embed_single_unchunked_batch defaultSettings id (fun ts => ts.map fun _ => [])
    [] (ascii "org-1") (ascii "agent-1") c8Req 0 (by decide) (by decide)

/-! ## Deduplication (C3, C10) -/

theorem findByHash_none_iff (store : Store) (h o a : Str) :
    findByHash store h o a = none ↔
      ∀ p ∈ store, ¬ (p.payload.org_id = o ∧ p.payload.agent_id = a ∧
        p.payload.dedupe_hash = some h) := by
  simp [findByHash, List.find?_eq_none]

theorem find?_map_upsert (r : MemoryRecord) (pred : Point → Bool)
    (hpt : pred ⟨r.id, r.payload, r.vector⟩ = true) (l : Store)
    (hall : ∀ p ∈ l, ¬ pred p = true)
    (hany : (l.any fun p => decide (p.id = r.id)) = true) :
    List.find? pred (l.map fun p => if p.id = r.id then ⟨r.id, r.payload, r.vector⟩ else p) =
      some ⟨r.id, r.payload, r.vector⟩ := by
  induction l with
  | nil => simp at hany
  | cons p rest ih =>
    simp only [List.map_cons]
    by_cases hid : p.id = r.id
    · rw [if_pos hid]
      exact List.find?_cons_of_pos _ hpt
    · rw [if_neg hid]
      rw [List.find?_cons_of_neg _ (by simpa using hall p (by simp))]
      refine ih (fun q hq => hall q (by simp [hq])) ?_
      simpa [hid] using hany

/-- Upserting a fresh record whose hash was absent makes `find_by_hash`
return exactly that record. -/
theorem findByHash_upsertPoint (store : Store) (r : MemoryRecord) (h o a : Str)
    (hnone : findByHash store h o a = none)
    (hro : r.payload.org_id = o) (hra : r.payload.agent_id = a)
    (hrh : r.payload.dedupe_hash = some h) :
    findByHash (upsertPoint store r) h o a =
      some ⟨r.id, r.payload.text, r.payload, none⟩ := by
  have hall : ∀ p ∈ store,
      ¬ (fun p => decide (p.payload.org_id = o ∧ p.payload.agent_id = a ∧
        p.payload.dedupe_hash = some h)) p = true := by
    intro p hp
    have := (findByHash_none_iff store h o a).mp hnone p hp
    simpa using this
  have hpt : (fun p => decide (p.payload.org_id = o ∧ p.payload.agent_id = a ∧
      p.payload.dedupe_hash = some h)) (⟨r.id, r.payload, r.vector⟩ : Point) = true := by
    simp [hro, hra, hrh]
  unfold upsertPoint
  by_cases hany : (store.any fun p => decide (p.id = r.id)) = true
  · rw [if_pos hany]
    unfold findByHash
    rw [find?_map_upsert r _ hpt store hall hany]
    rfl
  · rw [if_neg hany]
    unfold findByHash
    rw [List.find?_append, List.find?_eq_none.mpr hall]
    simp only at hpt
    simp [List.find?, hpt, pointToRecord]

/-- C10: with deduplication on and no stored record carrying the hash,
an add whose surviving candidates contain the same text twice does not
detect the in-batch duplicate: the response holds two records with the
same id and dedupe hash, and the single upsert batch holds two points
with that same id. -/
theorem memAdd_inbatch_duplicate_spec (settings : Settings)
    (normalizeFn : List Str → List Str) (embed : List Str → List Vec) (store : Store)
    (orgId agentId userId T : Str) (scopeOpt : Option Str) (tags : List Str)
    (source : Option Str) (ttl : Nat) (now : Int) (v1 v2 : Vec) (vrest : List Vec)
    (hnorm : (buildPolicyEngine settings.core
      (resolveOverrides settings.core orgId agentId)).normalize_with_llm = false)
    (hdedup : (buildPolicyEngine settings.core
      (resolveOverrides settings.core orgId agentId)).deduplicate = true)
    (hT : pyStrip T ≠ [])
    (hpersist : shouldPersist
      (buildPolicyEngine settings.core (resolveOverrides settings.core orgId agentId))
      (pyStrip T)
      (addScope ⟨userId, some [some T, some T], none, scopeOpt, tags, source, ttl⟩) = true)
    (hhash : findByHash store (computeHash orgId agentId userId (pyStrip T))
      orgId agentId = none)
    (hembed : embed [pyStrip T, pyStrip T] = v1 :: v2 :: vrest) :
    (memAdd settings normalizeFn embed store orgId agentId
        ⟨userId, some [some T, some T], none, scopeOpt, tags, source, ttl⟩ now).records.map
        (·.id) =
      [makeId orgId agentId (pyStrip T), makeId orgId agentId (pyStrip T)] ∧
    (memAdd settings normalizeFn embed store orgId agentId
        ⟨userId, some [some T, some T], none, scopeOpt, tags, source, ttl⟩ now).records.map
        (fun r => r.payload.dedupe_hash) =
      [some (computeHash orgId agentId userId (pyStrip T)),
       some (computeHash orgId agentId userId (pyStrip T))] ∧
    (memAdd settings normalizeFn embed store orgId agentId
        ⟨userId, some [some T, some T], none, scopeOpt, tags, source, ttl⟩ now).upsertCalls.map
        (fun batch => batch.map (·.id)) =
      [[makeId orgId agentId (pyStrip T), makeId orgId agentId (pyStrip T)]] := by
  have hTne : T ≠ [] := fun he => hT (by rw [he]; rfl)
  have hstrip : strippedCandidates
      ⟨userId, some [some T, some T], none, scopeOpt, tags, source, ttl⟩ =
      [pyStrip T, pyStrip T] := by
    simp [strippedCandidates, iterTexts, hTne, hT]
  have hcand : addCandidates
      (buildPolicyEngine settings.core (resolveOverrides settings.core orgId agentId))
      normalizeFn ⟨userId, some [some T, some T], none, scopeOpt, tags, source, ttl⟩ =
      [pyStrip T, pyStrip T] := by
    simp [addCandidates, hnorm, hstrip]
  have hsurv : survivingTexts
      (buildPolicyEngine settings.core (resolveOverrides settings.core orgId agentId))
      normalizeFn ⟨userId, some [some T, some T], none, scopeOpt, tags, source, ttl⟩ =
      [pyStrip T, pyStrip T] := by
    simp [survivingTexts, hcand, hpersist]
  unfold memAdd
  rw [if_neg (by rw [hstrip]; simp)]
  simp only [hsurv, hembed]
  rw [if_neg (by simp)]
  simp only [List.zip_cons_cons, List.zip_nil_left, List.foldl_cons, List.foldl_nil,
    hdedup, if_true]
  simp only [hhash]
  simp

/-- `Settings` whose default write policy disables LLM normalization
(used to exercise the dedup path deterministically). -/
def noLlmSettings : Settings :=
  ⟨⟨{ defaultWritePolicy with normalize_with_llm := false }, defaultRetrievalPolicy,
    ascii "openrouter/auto", 768, []⟩⟩

/-- C10 witness: the in-batch duplicate theorem applied to a concrete
double message. -/
theorem memAdd_inbatch_duplicate_spec_witness :
    pyStrip (ascii "water the plants weekly") ≠ [] ∧
    (memAdd noLlmSettings id (fun _ => [[1], [1]]) [] (ascii "o1") (ascii "a1")
        ⟨ascii "u1",
          some [some (ascii "water the plants weekly"),
            some (ascii "water the plants weekly")],
          none, none, [], none, 365⟩ 0).records.map (·.id) =
      [makeId (ascii "o1") (ascii "a1") (pyStrip (ascii "water the plants weekly")),
       makeId (ascii "o1") (ascii "a1") (pyStrip (ascii "water the plants weekly"))] := by
  refine ⟨by decide, ?_⟩
  exact (memAdd_inbatch_duplicate_spec noLlmSettings id (fun _ => [[1], [1]]) []
    (ascii "o1") (ascii "a1") (ascii "u1") (ascii "water the plants weekly") none [] none
    365 0 [1] [1] [] (by decide) (by decide) (by decide) (by decide) rfl rfl).1

/-- C3: with deduplication on and the hash initially absent, a first
add of text `T` upserts one record under the deterministic id, and a
second add of the same `(org, agent, user, T)` issues no upsert, leaves
the store unchanged, and returns a record with the same id. -/
theorem memAdd_dedup_second_add_spec (settings : Settings)
    (normalizeFn : List Str → List Str) (embed : List Str → List Vec) (store : Store)
    (orgId agentId userId T : Str) (scopeOpt : Option Str) (tags : List Str)
    (source : Option Str) (ttl : Nat) (now1 now2 : Int) (v : Vec) (vrest : List Vec)
    (hnorm : (buildPolicyEngine settings.core
      (resolveOverrides settings.core orgId agentId)).normalize_with_llm = false)
    (hdedup : (buildPolicyEngine settings.core
      (resolveOverrides settings.core orgId agentId)).deduplicate = true)
    (hT : pyStrip T ≠ [])
    (hpersist : shouldPersist
      (buildPolicyEngine settings.core (resolveOverrides settings.core orgId agentId))
      (pyStrip T) (addScope ⟨userId, none, some T, scopeOpt, tags, source, ttl⟩) = true)
    (hhash : findByHash store (computeHash orgId agentId userId (pyStrip T))
      orgId agentId = none)
    (hembed : embed [pyStrip T] = v :: vrest) :
    (memAdd settings normalizeFn embed store orgId agentId
        ⟨userId, none, some T, scopeOpt, tags, source, ttl⟩ now1).records.map (·.id) =
      [makeId orgId agentId (pyStrip T)] ∧
    (memAdd settings normalizeFn embed store orgId agentId
        ⟨userId, none, some T, scopeOpt, tags, source, ttl⟩ now1).upsertCalls.length = 1 ∧
    (memAdd settings normalizeFn embed
        (memAdd settings normalizeFn embed store orgId agentId
          ⟨userId, none, some T, scopeOpt, tags, source, ttl⟩ now1).store
        orgId agentId
        ⟨userId, none, some T, scopeOpt, tags, source, ttl⟩ now2).upsertCalls = [] ∧
    (memAdd settings normalizeFn embed
        (memAdd settings normalizeFn embed store orgId agentId
          ⟨userId, none, some T, scopeOpt, tags, source, ttl⟩ now1).store
        orgId agentId
        ⟨userId, none, some T, scopeOpt, tags, source, ttl⟩ now2).records.map (·.id) =
      [makeId orgId agentId (pyStrip T)] ∧
    (memAdd settings normalizeFn embed
        (memAdd settings normalizeFn embed store orgId agentId
          ⟨userId, none, some T, scopeOpt, tags, source, ttl⟩ now1).store
        orgId agentId
        ⟨userId, none, some T, scopeOpt, tags, source, ttl⟩ now2).store =
      (memAdd settings normalizeFn embed store orgId agentId
        ⟨userId, none, some T, scopeOpt, tags, source, ttl⟩ now1).store := by
  have hTne : T ≠ [] := fun he => hT (by rw [he]; rfl)
  have hstrip : strippedCandidates ⟨userId, none, some T, scopeOpt, tags, source, ttl⟩ =
      [pyStrip T] := by
    simp [strippedCandidates, iterTexts, hTne, hT]
  have hsurv : survivingTexts
      (buildPolicyEngine settings.core (resolveOverrides settings.core orgId agentId))
      normalizeFn ⟨userId, none, some T, scopeOpt, tags, source, ttl⟩ = [pyStrip T] := by
    simp [survivingTexts, addCandidates, hnorm, hstrip, hpersist]
  have hadd1 : memAdd settings normalizeFn embed store orgId agentId
      ⟨userId, none, some T, scopeOpt, tags, source, ttl⟩ now1 =
      ⟨[⟨makeId orgId agentId (pyStrip T), pyStrip T,
          ⟨orgId, agentId, userId, addScope ⟨userId, none, some T, scopeOpt, tags, source, ttl⟩,
            tags, source, ttl, now1, now1, false, pyStrip T,
            some (computeHash orgId agentId userId (pyStrip T))⟩, some v⟩],
        upsertPoint store
          ⟨makeId orgId agentId (pyStrip T), pyStrip T,
            ⟨orgId, agentId, userId,
              addScope ⟨userId, none, some T, scopeOpt, tags, source, ttl⟩,
              tags, source, ttl, now1, now1, false, pyStrip T,
              some (computeHash orgId agentId userId (pyStrip T))⟩, some v⟩,
        [[pyStrip T]],
        [[⟨makeId orgId agentId (pyStrip T), pyStrip T,
            ⟨orgId, agentId, userId,
              addScope ⟨userId, none, some T, scopeOpt, tags, source, ttl⟩,
              tags, source, ttl, now1, now1, false, pyStrip T,
              some (computeHash orgId agentId userId (pyStrip T))⟩, some v⟩]]⟩ := by
    unfold memAdd
    rw [if_neg (by rw [hstrip]; simp)]
    simp only [hsurv, hembed]
    rw [if_neg (by simp)]
    simp only [List.zip_cons_cons, List.zip_nil_left, List.foldl_cons, List.foldl_nil,
      hdedup, if_true, hhash]
    simp [repoUpsert]
  have hfind2 : findByHash
      (memAdd settings normalizeFn embed store orgId agentId
        ⟨userId, none, some T, scopeOpt, tags, source, ttl⟩ now1).store
      (computeHash orgId agentId userId (pyStrip T)) orgId agentId =
      some ⟨makeId orgId agentId (pyStrip T), pyStrip T,
        ⟨orgId, agentId, userId, addScope ⟨userId, none, some T, scopeOpt, tags, source, ttl⟩,
          tags, source, ttl, now1, now1, false, pyStrip T,
          some (computeHash orgId agentId userId (pyStrip T))⟩, none⟩ := by
    rw [hadd1]
    exact findByHash_upsertPoint store _ _ _ _ hhash rfl rfl rfl
  have hadd2gen : ∀ s : Store,
      findByHash s (computeHash orgId agentId userId (pyStrip T)) orgId agentId =
        some ⟨makeId orgId agentId (pyStrip T), pyStrip T,
          ⟨orgId, agentId, userId, addScope ⟨userId, none, some T, scopeOpt, tags, source, ttl⟩,
            tags, source, ttl, now1, now1, false, pyStrip T,
            some (computeHash orgId agentId userId (pyStrip T))⟩, none⟩ →
      memAdd settings normalizeFn embed s orgId agentId
          ⟨userId, none, some T, scopeOpt, tags, source, ttl⟩ now2 =
        ⟨[⟨makeId orgId agentId (pyStrip T), pyStrip T,
            ⟨orgId, agentId, userId,
              addScope ⟨userId, none, some T, scopeOpt, tags, source, ttl⟩,
              tags, source, ttl, now1, now1, false, pyStrip T,
              some (computeHash orgId agentId userId (pyStrip T))⟩, none⟩],
          s, [[pyStrip T]], []⟩ := by
    intro s hfind
    unfold memAdd
    rw [if_neg (by rw [hstrip]; simp)]
    simp only [hsurv, hembed]
    rw [if_neg (by simp)]
    simp only [List.zip_cons_cons, List.zip_nil_left, List.foldl_cons, List.foldl_nil,
      hdedup, if_true, hfind]
    simp
  have hadd2 := hadd2gen
    ((memAdd settings normalizeFn embed store orgId agentId
      ⟨userId, none, some T, scopeOpt, tags, source, ttl⟩ now1).store) hfind2
  refine ⟨?_, ?_, ?_, ?_, ?_⟩
  · simp [hadd1]
  · simp [hadd1]
  · simp [hadd2]
  · simp [hadd2]
  · simp [hadd2]

/-- C3 witness: the dedup theorem applied to a concrete text on an
empty store. -/
theorem memAdd_dedup_second_add_spec_witness :
    pyStrip (ascii "call mom tomorrow morning") ≠ [] ∧
    (memAdd noLlmSettings id (fun _ => [[1]])
        (memAdd noLlmSettings id (fun _ => [[1]]) [] (ascii "o1") (ascii "a1")
          ⟨ascii "u1", none, some (ascii "call mom tomorrow morning"), none, [], none, 365⟩
          0).store
        (ascii "o1") (ascii "a1")
        ⟨ascii "u1", none, some (ascii "call mom tomorrow morning"), none, [], none, 365⟩
        7).upsertCalls = [] := by
  refine ⟨by decide, ?_⟩
  exact (memAdd_dedup_second_add_spec noLlmSettings id (fun _ => [[1]]) [] (ascii "o1")
    (ascii "a1") (ascii "u1") (ascii "call mom tomorrow morning") none [] none 365 0 7 [1] []
    (by decide) (by decide) (by decide) (by decide) rfl rfl).2.2.1

/-! ## Soft-delete visibility (C1) -/

/-- A tenancy-matching filter pass implies the tenancy equalities. -/
theorem buildFilter_tenancy {o a : Str} {scope : Option Str} {tags : Option (List Str)}
    {p : MemoryPayload} (h : buildFilter o a scope tags p = true) :
    p.org_id = o ∧ p.agent_id = a := by
  simp only [buildFilter, Bool.and_eq_true, decide_eq_true_eq] at h
  exact ⟨h.1.1.1, h.1.1.2⟩

/-- A soft-deleted record under the caller's tenancy. -/
def c1DelPayload : MemoryPayload :=
  ⟨ascii "org-1", ascii "agent-1", ascii "user-1", ascii "facts", [], none, 365, 0, 0,
    true, ascii "soft deleted memory", none⟩

/-- The stored point carrying `c1DelPayload`. -/
def c1DelPoint : Point := ⟨ascii "mem-1", c1DelPayload, none⟩

/-- `MemoryCore.search` over a store holding only the soft-deleted
record returns it (the search filter has no `deleted` condition). -/
theorem memSearch_c1_eval :
    memSearch defaultSettings (fun _ _ => 0) (fun _ => []) [c1DelPoint] (ascii "org-1")
      (ascii "agent-1") ⟨ascii "q", none, 6, none, []⟩ 0 =
      [⟨ascii "mem-1", applyTimeDecay ((0 : ℚ) : ℝ) 0 0, ascii "soft deleted memory",
        c1DelPayload⟩] := by
  have hf : buildFilter (ascii "org-1") (ascii "agent-1") none none c1DelPoint.payload =
      true := by decide
  unfold memSearch repoSearch
  simp only [List.filter_cons, List.filter_nil, hf, if_true, List.map_cons, List.map_nil,
    List.mergeSort_singleton, List.take_succ_cons, List.take_nil]
  simp [List.mergeSort_singleton, c1DelPoint, c1DelPayload]

/-- C1 counterexample: semantic search returns the soft-deleted record
under default arguments (no `include_deleted` involved): the result
list consists exactly of the deleted record's id with `deleted=true`. -/
theorem memSearch_returns_deleted_cex :
    (memSearch defaultSettings (fun _ _ => 0) (fun _ => []) [c1DelPoint] (ascii "org-1")
        (ascii "agent-1") ⟨ascii "q", none, 6, none, []⟩ 0).map
      (fun h => (h.id, h.payload.deleted)) = [(ascii "mem-1", true)] := by
  rw [memSearch_c1_eval]
  rfl

/-- C1 (amended): records with `deleted=true` are absent from default
`list` and `search_text` results; but the semantic-search filter
carries no `deleted` condition (it is insensitive to the flag), and a
soft-deleted record is returned by `MemoryCore.search`. -/
theorem deleted_record_visibility_spec :
    (∀ (store : Store) (o a : Str) (limit : Nat) (r : MemoryRecord),
      r ∈ memList store o a limit false → r.payload.deleted = false) ∧
    (∀ (store : Store) (o a q : Str) (limit : Nat) (r : MemoryRecord),
      r ∈ memSearchText store o a q limit false → r.payload.deleted = false) ∧
    (∀ (o a : Str) (scope : Option Str) (tags : Option (List Str)) (p : MemoryPayload)
      (d : Bool),
      buildFilter o a scope tags { p with deleted := d } = buildFilter o a scope tags p) ∧
    (∃ hit ∈ memSearch defaultSettings (fun _ _ => 0) (fun _ => []) [c1DelPoint]
        (ascii "org-1") (ascii "agent-1") ⟨ascii "q", none, 6, none, []⟩ 0,
      hit.payload.deleted = true) := by
  refine ⟨?_, ?_, ?_, ?_⟩
  · intro store o a limit r hr
    unfold memList listRecent at hr
    obtain ⟨p, hp, hpr⟩ := List.mem_map.mp hr
    have hp1 := List.mem_of_mem_take hp
    have hp2 := (List.mergeSort_perm _ _).mem_iff.mp hp1
    have hp3 := (List.mem_filter.mp hp2).2
    simp only [Bool.false_eq_true, false_or, decide_eq_true_eq] at hp3
    rw [← hpr]
    exact hp3.2.2
  · intro store o a q limit r hr
    unfold memSearchText searchText at hr
    obtain ⟨p, hp, hpr⟩ := List.mem_map.mp hr
    have hp1 := List.mem_of_mem_take hp
    have hp2 := (List.mem_filter.mp (List.mem_filter.mp hp1).1).2
    simp only [Bool.false_eq_true, false_or, decide_eq_true_eq] at hp2
    rw [← hpr]
    exact hp2.2.2
  · intro o a scope tags p d
    rfl
  · refine ⟨⟨ascii "mem-1", applyTimeDecay ((0 : ℚ) : ℝ) 0 0, ascii "soft deleted memory",
      c1DelPayload⟩, ?_, rfl⟩
    rw [memSearch_c1_eval]
    exact List.mem_singleton.mpr rfl

/-- C1 witness: the visibility theorem applied to a concrete
single-record store. -/
theorem deleted_record_visibility_spec_witness :
    pointToRecord ⟨ascii "mem-1", ⟨ascii "org-1", ascii "agent-1", ascii "user-1",
        ascii "facts", [], none, 365, 0, 0, false, ascii "kept memory", none⟩, none⟩ ∈
      memList [⟨ascii "mem-1", ⟨ascii "org-1", ascii "agent-1", ascii "user-1",
        ascii "facts", [], none, 365, 0, 0, false, ascii "kept memory", none⟩, none⟩]
        (ascii "org-1") (ascii "agent-1") 5 false ∧
    (pointToRecord ⟨ascii "mem-1", ⟨ascii "org-1", ascii "agent-1", ascii "user-1",
        ascii "facts", [], none, 365, 0, 0, false, ascii "kept memory", none⟩,
        none⟩).payload.deleted = false := by
  have hmem : pointToRecord ⟨ascii "mem-1", ⟨ascii "org-1", ascii "agent-1", ascii "user-1",
      ascii "facts", [], none, 365, 0, 0, false, ascii "kept memory", none⟩, none⟩ ∈
      memList [⟨ascii "mem-1", ⟨ascii "org-1", ascii "agent-1", ascii "user-1",
        ascii "facts", [], none, 365, 0, 0, false, ascii "kept memory", none⟩, none⟩]
        (ascii "org-1") (ascii "agent-1") 5 false := by
    unfold memList listRecent
    simp [List.mergeSort_singleton, List.filter]
  exact ⟨hmem, deleted_record_visibility_spec.1 _ (ascii "org-1") (ascii "agent-1") 5 _ hmem⟩

/-! ## Tenant isolation (C2) -/

theorem find?_id_of_nodup (store : Store) (p : Point) (hmem : p ∈ store)
    (hnodup : (store.map (·.id)).Nodup) :
    (store.find? fun q => q.id = p.id) = some p := by
  induction store with
  | nil => simp at hmem
  | cons q rest ih =>
    rw [List.map_cons, List.nodup_cons] at hnodup
    rcases List.mem_cons.mp hmem with hq | hq
    · subst hq
      exact List.find?_cons_of_pos _ (by simp)
    · have hqid : ¬ q.id = p.id := by
        intro he
        refine hnodup.1 ?_
        rw [he]
        exact List.mem_map_of_mem _ hq
      rw [List.find?_cons_of_neg _ (by simpa using hqid)]
      exact ih hq hnodup.2

theorem repoGet_of_nodup (store : Store) (p : Point) (hmem : p ∈ store)
    (hnodup : (store.map (·.id)).Nodup) :
    repoGet store p.id = some (pointToRecord p) := by
  unfold repoGet
  rw [find?_id_of_nodup store p hmem hnodup]
  rfl

/-- Foreign points survive the soft branch of `delete_many`. -/
theorem mem_foldl_soft_delete (records : List MemoryRecord) (o a : Str) (now : Int)
    (p : Point) (s : Store) (hp : p ∈ s)
    (hids : ∀ rec ∈ records,
      rec.payload.org_id = o ∧ rec.payload.agent_id = a → p.id ≠ rec.id) :
    p ∈ records.foldl
      (fun s r =>
        if r.payload.org_id = o ∧ r.payload.agent_id = a then
          setPayload s { r with payload := { r.payload with deleted := true, updated_at := now } }
        else s)
      s := by
  induction records generalizing s with
  | nil => exact hp
  | cons rec rest ih =>
    simp only [List.foldl_cons]
    refine ih _ ?_ fun r hr => hids r (List.mem_cons_of_mem _ hr)
    by_cases hcond : rec.payload.org_id = o ∧ rec.payload.agent_id = a
    · rw [if_pos hcond]
      unfold setPayload
      have hmm := List.mem_map_of_mem
        (fun q : Point => if q.id = rec.id then
          (⟨q.id, { rec.payload with deleted := true, updated_at := now }, q.vector⟩ : Point)
          else q) hp
      simpa [if_neg fun he => hids rec (List.mem_cons_self _ _) hcond he] using hmm
    · rw [if_neg hcond]
      exact hp

/-- A record stored under a different org than the caller's. -/
def c2ForeignPoint : Point :=
  ⟨ascii "f-1", ⟨ascii "other-org", ascii "agent-1", ascii "u", ascii "facts", [], none,
    365, 0, 0, false, ascii "foreign memory", none⟩, none⟩

/-- C2 counterexample: hard `delete_many` under `(org-1, agent-1)`
removes a record stored under a different org. -/
theorem memDeleteMany_hard_cross_tenant_cex :
    c2ForeignPoint.payload.org_id ≠ ascii "org-1" ∧
    memDeleteMany [c2ForeignPoint] (ascii "org-1") (ascii "agent-1") [ascii "f-1"] true 0 =
      [] := by
  exact ⟨by decide, by decide⟩

/-- C2 (amended): under tenancy `(O, A)`, search, list, `get_many` and
`search_text` only return records carrying `(O, A)`; `update` and
`delete` on a foreign record's id fail with `NotFoundError`; the soft
branch of `delete_many` leaves every foreign record untouched.  (Hard
`delete_many` is exempt: it deletes the supplied ids with no tenancy
check.) -/
theorem tenant_isolation_spec (store : Store) (o a : Str)
    (hnodup : (store.map (·.id)).Nodup) :
    (∀ (settings : Settings) (sim : Vec → Option Vec → ℚ) (embedQuery : Str → Vec)
        (req : SearchRequest) (now : Int) (hit : MemoryHit),
      hit ∈ memSearch settings sim embedQuery store o a req now →
      hit.payload.org_id = o ∧ hit.payload.agent_id = a) ∧
    (∀ (limit : Nat) (incl : Bool) (r : MemoryRecord),
      r ∈ memList store o a limit incl →
      r.payload.org_id = o ∧ r.payload.agent_id = a) ∧
    (∀ (ids : List Str) (r : MemoryRecord),
      r ∈ memGetMany store o a ids →
      r.payload.org_id = o ∧ r.payload.agent_id = a) ∧
    (∀ (q : Str) (limit : Nat) (incl : Bool) (r : MemoryRecord),
      r ∈ memSearchText store o a q limit incl →
      r.payload.org_id = o ∧ r.payload.agent_id = a) ∧
    (∀ p : Point, p ∈ store → ¬ (p.payload.org_id = o ∧ p.payload.agent_id = a) →
      (∀ (embedOne : Str → Vec) (ureq : UpdateMemoryRequest) (now : Int),
        memUpdate embedOne store o a p.id ureq now = .error .notFound) ∧
      (∀ (hard : Bool) (now : Int),
        memDelete store o a p.id hard now = .error .notFound) ∧
      (∀ (ids : List Str) (now : Int), p ∈ memDeleteMany store o a ids false now)) := by
  refine ⟨?_, ?_, ?_, ?_, ?_⟩
  · intro settings sim embedQuery req now hit hmem
    unfold memSearch at hmem
    have h1 := (List.mergeSort_perm _ _).mem_iff.mp hmem
    obtain ⟨rh, hrh, hdecay⟩ := List.mem_map.mp h1
    unfold repoSearch at hrh
    have h2 := List.mem_of_mem_take hrh
    have h3 := (List.mergeSort_perm _ _).mem_iff.mp h2
    obtain ⟨pnt, hpnt, hmk⟩ := List.mem_map.mp h3
    have h4 := (List.mem_filter.mp hpnt).2
    have h5 := buildFilter_tenancy h4
    rw [← hdecay, ← hmk]
    exact h5
  · intro limit incl r hr
    unfold memList listRecent at hr
    obtain ⟨p, hp, hpr⟩ := List.mem_map.mp hr
    have hp2 := (List.mergeSort_perm _ _).mem_iff.mp (List.mem_of_mem_take hp)
    have hp3 := (List.mem_filter.mp hp2).2
    simp only [Bool.and_eq_true, decide_eq_true_eq] at hp3
    rw [← hpr]
    exact ⟨hp3.1, hp3.2.1⟩
  · intro ids r hr
    have := (List.mem_filter.mp hr).2
    simpa using this
  · intro q limit incl r hr
    unfold memSearchText searchText at hr
    obtain ⟨p, hp, hpr⟩ := List.mem_map.mp hr
    have hp2 := (List.mem_filter.mp (List.mem_filter.mp (List.mem_of_mem_take hp)).1).2
    simp only [Bool.and_eq_true, decide_eq_true_eq] at hp2
    rw [← hpr]
    exact ⟨hp2.1, hp2.2.1⟩
  · intro p hmem hforeign
    have hget := repoGet_of_nodup store p hmem hnodup
    have hmismatch : p.payload.org_id ≠ o ∨ p.payload.agent_id ≠ a := by
      by_contra hno
      push_neg at hno
      exact hforeign ⟨hno.1, hno.2⟩
    refine ⟨?_, ?_, ?_⟩
    · intro embedOne ureq now
      unfold memUpdate
      rw [hget]
      dsimp only [pointToRecord]
      rw [if_pos hmismatch]
    · intro hard now
      unfold memDelete
      rw [hget]
      dsimp only [pointToRecord]
      rw [if_pos hmismatch]
    · intro ids now
      unfold memDeleteMany
      by_cases hids : ids = []
      · simp [hids, hmem]
      · rw [if_neg hids]
        simp only [Bool.false_eq_true, if_false]
        refine mem_foldl_soft_delete _ o a now p store hmem ?_
        intro rec hrec hten
        obtain ⟨q, hq, hqr⟩ := List.mem_map.mp ((by
          unfold repoGetMany at hrec
          rw [if_neg hids] at hrec
          exact hrec) : rec ∈ (store.filter fun pt => pt.id ∈ ids).map pointToRecord)
        have hqmem : q ∈ store := (List.mem_filter.mp hq).1
        have hqten : q.payload.org_id = o ∧ q.payload.agent_id = a := by
          rw [← hqr] at hten
          exact hten
        have hpq : p ≠ q := by
          intro he
          rw [he] at hforeign
          exact hforeign hqten
        intro hidEq
        have hinj := List.inj_on_of_nodup_map hnodup
        exact hpq (hinj hmem hqmem (by rw [← hqr] at hidEq; exact hidEq))

/-- C2 witness: the isolation theorem applied to a one-record store
holding a foreign record. -/
theorem tenant_isolation_spec_witness :
    (([c2ForeignPoint] : Store).map (·.id)).Nodup ∧
    memUpdate (fun _ => []) [c2ForeignPoint] (ascii "org-1") (ascii "agent-1")
      c2ForeignPoint.id ⟨none, none, none, none, none⟩ 0 = .error .notFound := by
  refine ⟨by decide, ?_⟩
  exact ((tenant_isolation_spec [c2ForeignPoint] (ascii "org-1") (ascii "agent-1")
    (by decide)).2.2.2.2 c2ForeignPoint (by simp) (by decide)).1
    (fun _ => []) ⟨none, none, none, none, none⟩ 0

end Memscend
